import Mathlib

/-!
# Signaling relay of `main.go`: rooms, registry and the websocket handler

A shallow embedding of the room registry and of the message loop of
`handleWebSocket`.

* A `*websocket.Conn` and a `*Room` are addresses (`Conn`, `Ptr`); rooms live
  in a heap indexed by `Ptr`, so that two names of the same `Room` instance
  are told apart from two rooms with equal contents.
* A Go `map` is an association list with pairwise distinct keys
  (`AList`).  Go leaves the order of `range` over a map unspecified: every
  traversal goes through `Env.range`, an arbitrary reordering of the
  entries, and all results hold for every `Env`.
* `conn.WriteJSON` is recorded as a `Write` (receiver, message and whether
  the call returned an error, as chosen by `Env.writeErr`).  `log.Printf`
  output is not recorded.
* The mutexes are not modelled: every method call, and every pass through
  the body of the handler loop, is one atomic step.
-/

namespace Signaling

/-- Address of a `websocket.Conn`. -/
abbrev Conn := Nat

/-- Address of a `Room`. -/
abbrev Ptr := Nat

/-- The `webrtc.SessionDescription` payload (library type, carried as is). -/
structure SessionDescription where
  SDPType : Nat
  SDP : String
deriving DecidableEq, Repr

/-- The `webrtc.ICECandidateInit` payload (library type, carried as is). -/
structure ICECandidateInit where
  Candidate : String
  SDPMid : Option String
  SDPMLineIndex : Option Nat
  UsernameFragment : Option String
deriving DecidableEq, Repr

/-- The struct `Message`; an omitted field has its zero value. -/
structure Message where
  Typ : String := ""
  RoomID : String := ""
  UserID : String := ""
  TargetID : String := ""
  SDP : Option SessionDescription := none
  ICE : Option ICECandidateInit := none
  Users : List String := []
deriving DecidableEq, Repr

/-- One entry of `Room.clients`: a connection and the userID bound to it. -/
abbrev Entry := Sigma (fun _ : Conn => String)

/-- The map `clients map[*websocket.Conn]string`. -/
abbrev Clients := AList (fun _ : Conn => String)

/-- The struct `Room` (without its mutex). -/
structure Room where
  clients : Clients
deriving DecidableEq

/-- What the code cannot control in one step: the order in which `range`
visits the entries of a map, and which connections fail on write. -/
structure Env where
  range : List Entry → List Entry
  range_perm : ∀ l, (range l).Perm l
  writeErr : Conn → Bool

/-- One call of `conn.WriteJSON(msg)`; `err` tells whether it returned an error. -/
structure Write where
  conn : Conn
  msg : Message
  err : Bool
deriving DecidableEq, Repr

/-- The call `conn.WriteJSON(msg)`. -/
def writeJSON (env : Env) (conn : Conn) (msg : Message) : Write :=
  { conn := conn, msg := msg, err := env.writeErr conn }

/-- The room `&Room{clients: make(map[*websocket.Conn]string)}`. -/
def Room.empty : Room := { clients := ∅ }

/-- Method `addClient`: `room.clients[conn] = userID`. -/
def Room.addClient (room : Room) (conn : Conn) (userID : String) : Room :=
  { clients := room.clients.insert conn userID }

/-- Method `removeClient`: `delete(room.clients, conn)`. -/
def Room.removeClient (room : Room) (conn : Conn) : Room :=
  { clients := room.clients.erase conn }

/-- Loop of `getUsers`: append the userID of every visited entry. -/
def getUsersLoop : List Entry → List String → List String
  | [], users => users
  | e :: rest, users => getUsersLoop rest (users ++ [e.2])

/-- Method `getUsers`. -/
def Room.getUsers (env : Env) (room : Room) : List String :=
  getUsersLoop (env.range room.clients.entries) []

/-- Loop of `broadcast`: one write per visited connection other than
`excludeConn`; a failed write is only logged and the loop goes on. -/
def broadcastLoop (env : Env) (msg : Message) (excludeConn : Option Conn) :
    List Entry → List Write
  | [] => []
  | e :: rest =>
    if some e.1 ≠ excludeConn then
      writeJSON env e.1 msg :: broadcastLoop env msg excludeConn rest
    else broadcastLoop env msg excludeConn rest

/-- Method `broadcast`; `excludeConn = none` is the `nil` argument. -/
def Room.broadcast (env : Env) (room : Room) (msg : Message) (excludeConn : Option Conn) :
    List Write :=
  broadcastLoop env msg excludeConn (env.range room.clients.entries)

/-- Loop of `sendToUser`: write to the first visited entry bound to
`targetID` and return. -/
def sendToUserLoop (env : Env) (targetID : String) (msg : Message) : List Entry → List Write
  | [] => []
  | e :: rest =>
    if e.2 = targetID then [writeJSON env e.1 msg]
    else sendToUserLoop env targetID msg rest

/-- Method `sendToUser`. -/
def Room.sendToUser (env : Env) (room : Room) (targetID : String) (msg : Message) : List Write :=
  sendToUserLoop env targetID msg (env.range room.clients.entries)

/-- The shared state: the heap of rooms, the next free address and the map
`roomManager.rooms`. -/
structure State where
  heap : Ptr → Room
  next : Ptr
  rooms : AList (fun _ : String => Ptr)

/-- The state at start-up: `rooms: make(map[string]*Room)`. -/
def State.init : State := { heap := fun _ => Room.empty, next := 0, rooms := ∅ }

/-- Apply a room method with a pointer receiver to the room at `p`. -/
def State.modify (st : State) (p : Ptr) (f : Room → Room) : State :=
  { st with heap := Function.update st.heap p (f (st.heap p)) }

/-- Method `getOrCreateRoom`: the room found under `roomID`, or a newly
allocated empty room stored under `roomID`. -/
def getOrCreateRoom (rm : State) (roomID : String) : Ptr × State :=
  match rm.rooms.lookup roomID with
  | some room => (room, rm)
  | none =>
    let room := rm.next
    (room, { heap := Function.update rm.heap room Room.empty,
             next := rm.next + 1,
             rooms := rm.rooms.insert roomID room })

/-- The local variables of one run of `handleWebSocket`; `currentRoom = none` is `nil`. -/
structure Locals where
  currentRoom : Option Ptr := none
  currentUserID : String := ""
  currentRoomID : String := ""
deriving DecidableEq, Repr

/-- The local variables when the handler starts. -/
def Locals.init : Locals := {}

/-- One pass through the body of the loop of `handleWebSocket`, after
`ReadJSON` returned `msg`: the `switch msg.Type`. -/
def handleMessage (env : Env) (conn : Conn) (st : State) (loc : Locals) (msg : Message) :
    State × Locals × List Write :=
  if msg.Typ = "join" then
    let currentRoomID := msg.RoomID
    let currentUserID := msg.UserID
    let (currentRoom, st1) := getOrCreateRoom st currentRoomID
    let existingUsers := (st1.heap currentRoom).getUsers env
    let w := writeJSON env conn { Typ := "users", Users := existingUsers }
    let st2 := st1.modify currentRoom (fun room => room.addClient conn currentUserID)
    let ws := (st2.heap currentRoom).broadcast env
      { Typ := "user-joined", UserID := currentUserID } (some conn)
    (st2, { currentRoom := some currentRoom, currentUserID := currentUserID,
            currentRoomID := currentRoomID }, w :: ws)
  else if msg.Typ = "offer" then
    match loc.currentRoom with
    | some room =>
      (st, loc, (st.heap room).sendToUser env msg.TargetID
        { Typ := "offer", UserID := loc.currentUserID, SDP := msg.SDP })
    | none => (st, loc, [])
  else if msg.Typ = "answer" then
    match loc.currentRoom with
    | some room =>
      (st, loc, (st.heap room).sendToUser env msg.TargetID
        { Typ := "answer", UserID := loc.currentUserID, SDP := msg.SDP })
    | none => (st, loc, [])
  else if msg.Typ = "ice-candidate" then
    match loc.currentRoom with
    | some room =>
      (st, loc, (st.heap room).sendToUser env msg.TargetID
        { Typ := "ice-candidate", UserID := loc.currentUserID, ICE := msg.ICE })
    | none => (st, loc, [])
  else if msg.Typ = "leave" then
    match loc.currentRoom with
    | some room =>
      let st1 := st.modify room (fun r => r.removeClient conn)
      (st1, loc, (st1.heap room).broadcast env
        { Typ := "user-left", UserID := loc.currentUserID } none)
    | none => (st, loc, [])
  else (st, loc, [])

/-- The code after the loop of `handleWebSocket` (clean-up on disconnect). -/
def cleanup (env : Env) (conn : Conn) (st : State) (loc : Locals) : State × List Write :=
  match loc.currentRoom with
  | some room =>
    let st1 := st.modify room (fun r => r.removeClient conn)
    (st1, (st1.heap room).broadcast env
      { Typ := "user-left", UserID := loc.currentUserID } none)
  | none => (st, [])

/-- What `ReadJSON` gives the loop: a parsed message, or an error (read
failure, close, or a payload that does not parse), which ends the loop. -/
inductive Event where
  | recv (msg : Message)
  | readError
deriving DecidableEq

/-- One step of the server: the handler of `conn` reads `ev` under `env`. -/
structure Step where
  env : Env
  conn : Conn
  ev : Event

/-- The server with all its handlers: the shared state and the local
variables of the handler of every connection. -/
structure Sys where
  st : State
  locals : Conn → Locals

/-- The server at start-up: no room, every handler at its first line. -/
def Sys.init : Sys := { st := State.init, locals := fun _ => Locals.init }

/-- One step of the server and the writes it makes. -/
def sysStep (s : Sys) (x : Step) : Sys × List Write :=
  match x.ev with
  | Event.recv msg =>
    let r := handleMessage x.env x.conn s.st (s.locals x.conn) msg
    ({ st := r.1, locals := Function.update s.locals x.conn r.2.1 }, r.2.2)
  | Event.readError =>
    let r := cleanup x.env x.conn s.st (s.locals x.conn)
    ({ st := r.1, locals := s.locals }, r.2)

/-- A sequence of steps of the server, with all writes in order. -/
def sysRun (s : Sys) : List Step → Sys × List Write
  | [] => (s, [])
  | x :: xs =>
    let r := sysStep s x
    let r2 := sysRun r.1 xs
    (r2.1, r.2 ++ r2.2)

/-- The traversal order that visits the entries as stored, with no failing write. -/
def Env.plain : Env := { range := id, range_perm := fun l => List.Perm.refl l, writeErr := fun _ => false }

/-- The traversal order that visits the entries in reverse, with no failing write. -/
def Env.rev : Env :=
  { range := List.reverse, range_perm := fun l => List.reverse_perm l, writeErr := fun _ => false }

/-! ## Concrete inputs used by the examples -/

/-- The inbound message `{type: join, roomId, userId}`. -/
def joinMsg (roomID userID : String) : Message :=
  { Typ := "join", RoomID := roomID, UserID := userID }

/-- The inbound message `{type: leave}`. -/
def leaveMsg : Message := { Typ := "leave" }

/-- Connection 1 joins room `r1` as `alice`. -/
def demoJoinAlice : Step := { env := Env.plain, conn := 1, ev := Event.recv (joinMsg "r1" "alice") }

/-- Connection 2 joins room `r1` as `bob`. -/
def demoJoinBob : Step := { env := Env.plain, conn := 2, ev := Event.recv (joinMsg "r1" "bob") }

/-- The server after `alice` joined `r1` on connection 1. -/
def demoSysAlice : Sys := (sysRun Sys.init [demoJoinAlice]).1

/-- The server after `alice` and then `bob` joined `r1`, on connections 1 and 2. -/
def demoSys : Sys := (sysRun Sys.init [demoJoinAlice, demoJoinBob]).1

/-- An offer for `alice` whose sender field claims to be `mallory`. -/
def demoOffer : Message :=
  { Typ := "offer", UserID := "mallory", TargetID := "alice",
    SDP := some { SDPType := 1, SDP := "v=0" } }

/-- Connection 1 joins `r1` and then, without leaving, `r2`. -/
def demoTwoRooms : List Step :=
  [demoJoinAlice, { env := Env.plain, conn := 1, ev := Event.recv (joinMsg "r2" "alice") }]

/-- A short call: `alice` and `bob` join `r1`, `bob` sends an offer, `alice` leaves. -/
def demoCall : List Step :=
  [demoJoinAlice, demoJoinBob,
   { env := Env.plain, conn := 2, ev := Event.recv demoOffer },
   { env := Env.plain, conn := 1, ev := Event.recv leaveMsg }]

/-! ## Properties of states and traces -/

/-- Every connection is in the client map of at most one room. -/
def SingleRoom (s : Sys) : Prop :=
  ∀ c p q, c ∈ (s.st.heap p).clients → c ∈ (s.st.heap q).clients → p = q

/-- The step `x`, if it is a join, names the room of every client map that
holds its connection: the connection is in no room, or joins its room again. -/
def JoinsOneRoom (s : Sys) (x : Step) : Prop :=
  ∀ msg, x.ev = Event.recv msg → msg.Typ = "join" →
    ∀ p, x.conn ∈ (s.st.heap p).clients → s.st.rooms.lookup msg.RoomID = some p

/-- Every step of the trace, taken from `s`, satisfies `JoinsOneRoom`. -/
def Disciplined (s : Sys) : List Step → Prop
  | [] => True
  | x :: xs => JoinsOneRoom s x ∧ Disciplined (sysStep s x).1 xs

/-- The step `x` is not a join read on connection `c`. -/
def NoJoinOn (c : Conn) (x : Step) : Prop :=
  x.conn = c → ∀ msg, x.ev = Event.recv msg → msg.Typ ≠ "join"

/-- In room `r1` with `alice` and `bob`, `bob` (connection 2) leaves. -/
def demoLeft : List Step :=
  [demoJoinAlice, demoJoinBob, { env := Env.plain, conn := 2, ev := Event.recv leaveMsg }]

/-- The three struct literals built by the relay cases of the handler, as
one function of the handler userID and the inbound message. -/
def relayOf (userID : String) (msg : Message) : Message :=
  { Typ := msg.Typ, UserID := userID,
    SDP := if msg.Typ = "ice-candidate" then none else msg.SDP,
    ICE := if msg.Typ = "ice-candidate" then msg.ICE else none }

/-- The type of `msg` is one of the three relayed types. -/
def IsRelay (msg : Message) : Prop :=
  msg.Typ = "offer" ∨ msg.Typ = "answer" ∨ msg.Typ = "ice-candidate"

/-- The step `x` is a join read on connection `c`. -/
def IsJoinOn (c : Conn) (x : Step) : Prop :=
  x.conn = c ∧ ∃ msg, x.ev = Event.recv msg ∧ msg.Typ = "join"

/-- A serialised sequence of `getOrCreateRoom` calls, one per roomID of the
list: the final state and the rooms returned, in call order. -/
def getOrCreateRooms (rm : State) : List String → State × List Ptr
  | [] => (rm, [])
  | roomID :: rest =>
    let r := getOrCreateRoom rm roomID
    let r2 := getOrCreateRooms r.2 rest
    (r2.1, r.1 :: r2.2)

/-- Every room of the registry has an address below the next free one. -/
def State.Allocated (rm : State) : Prop :=
  ∀ roomID p, rm.rooms.lookup roomID = some p → p < rm.next

/-- A sequence of `addClient` calls on a room. -/
def addClients (room : Room) : List (Conn × String) → Room
  | [] => room
  | j :: rest => addClients (room.addClient j.1 j.2) rest

/-- `alice` joins `r1` on connection 1 and leaves: the room is empty. -/
def demoEmptied : List Step :=
  [demoJoinAlice, { env := Env.plain, conn := 1, ev := Event.recv leaveMsg }]

/-- The offer `demoOffer` with the sender field changed to `alice`. -/
def demoForged : Message := { demoOffer with UserID := "alice" }

/-- Connection 1, still in `r1`, joins `r2`. -/
def demoJoinSecond : Step :=
  { env := Env.plain, conn := 1, ev := Event.recv (joinMsg "r2" "carol") }

/-! ## The loops, in closed form -/

theorem getUsersLoop_eq (l : List Entry) (users : List String) :
    getUsersLoop l users = users ++ l.map (fun e => e.2) := by
  induction l generalizing users with
  | nil => simp [getUsersLoop]
  | cons e rest ih => simp [getUsersLoop, ih]

theorem broadcastLoop_eq (env : Env) (msg : Message) (ex : Option Conn) (l : List Entry) :
    broadcastLoop env msg ex l
      = ((l.map Sigma.fst).filter (fun k => decide (some k ≠ ex))).map
          (fun k => writeJSON env k msg) := by
  induction l with
  | nil => simp [broadcastLoop]
  | cons e rest ih =>
    by_cases h : some e.1 = ex <;> simp [broadcastLoop, ih, h, List.filter_cons]

theorem sendToUserLoop_miss (env : Env) (t : String) (msg : Message) (l : List Entry)
    (h : ∀ e ∈ l, e.2 ≠ t) : sendToUserLoop env t msg l = [] := by
  induction l with
  | nil => rfl
  | cons e rest ih =>
    have he : e.2 ≠ t := h e (List.mem_cons_self _ _)
    simp only [sendToUserLoop, he, if_false]
    exact ih (fun x hx => h x (List.mem_cons_of_mem _ hx))

theorem sendToUserLoop_hit (env : Env) (t : String) (msg : Message) (l : List Entry)
    (h : ∃ e ∈ l, e.2 = t) :
    ∃ e ∈ l, e.2 = t ∧ sendToUserLoop env t msg l = [writeJSON env e.1 msg] := by
  induction l with
  | nil => simp at h
  | cons e rest ih =>
    by_cases he : e.2 = t
    · exact ⟨e, List.mem_cons_self _ _, he, by simp [sendToUserLoop, he]⟩
    · have h2 : ∃ x ∈ rest, x.2 = t := by
        obtain ⟨x, hx, hxt⟩ := h
        rcases List.mem_cons.mp hx with rfl | hx
        · exact absurd hxt he
        · exact ⟨x, hx, hxt⟩
      obtain ⟨x, hx, hxt, heq⟩ := ih h2
      exact ⟨x, List.mem_cons_of_mem _ hx, hxt, by simp [sendToUserLoop, he, heq]⟩

/-! ## Room methods -/

theorem range_keys_perm (env : Env) (m : Clients) :
    ((env.range m.entries).map Sigma.fst).Perm m.keys :=
  (env.range_perm m.entries).map Sigma.fst

theorem mem_range_iff (env : Env) (m : Clients) (e : Entry) :
    e ∈ env.range m.entries ↔ m.lookup e.1 = some e.2 := by
  rw [(env.range_perm m.entries).mem_iff]
  cases e with
  | mk k u => exact (AList.mem_lookup_iff).symm

/-- Up to order, `broadcast` writes once to every key other than the excluded one. -/
theorem broadcast_perm (env : Env) (room : Room) (msg : Message) (ex : Option Conn) :
    (room.broadcast env msg ex).Perm
      ((room.clients.keys.filter (fun k => decide (some k ≠ ex))).map
        (fun k => writeJSON env k msg)) := by
  unfold Room.broadcast
  rw [broadcastLoop_eq]
  exact ((range_keys_perm env room.clients).filter _).map _

theorem broadcast_none_perm (env : Env) (room : Room) (msg : Message) :
    (room.broadcast env msg none).Perm
      (room.clients.keys.map (fun k => writeJSON env k msg)) := by
  simpa using broadcast_perm env room msg none

theorem getUsers_perm (env : Env) (room : Room) :
    (room.getUsers env).Perm (room.clients.entries.map (fun e => e.2)) := by
  unfold Room.getUsers
  rw [getUsersLoop_eq]
  simpa using (env.range_perm room.clients.entries).map (fun e => e.2)

theorem sendToUser_miss (env : Env) (room : Room) (t : String) (msg : Message)
    (h : ∀ k, room.clients.lookup k ≠ some t) : room.sendToUser env t msg = [] := by
  apply sendToUserLoop_miss
  intro e he heq
  exact h e.1 (heq ▸ (mem_range_iff env room.clients e).mp he)

theorem sendToUser_hit (env : Env) (room : Room) (t : String) (msg : Message)
    (h : ∃ k, room.clients.lookup k = some t) :
    ∃ k, room.clients.lookup k = some t ∧ room.sendToUser env t msg = [writeJSON env k msg] := by
  obtain ⟨k, hk⟩ := h
  have hmem : (⟨k, t⟩ : Entry) ∈ env.range room.clients.entries :=
    (mem_range_iff env room.clients ⟨k, t⟩).mpr hk
  obtain ⟨e, he, het, heq⟩ :=
    sendToUserLoop_hit env t msg (env.range room.clients.entries) ⟨⟨k, t⟩, hmem, rfl⟩
  exact ⟨e.1, het ▸ (mem_range_iff env room.clients e).mp he, heq⟩

/-! ## Registry -/

theorem getOrCreateRoom_lookup (st : State) (roomID : String) :
    (getOrCreateRoom st roomID).2.rooms.lookup roomID = some (getOrCreateRoom st roomID).1 := by
  unfold getOrCreateRoom
  cases h : st.rooms.lookup roomID with
  | some p => simpa using h
  | none => simp

theorem modify_heap_self (st : State) (p : Ptr) (f : Room → Room) :
    (st.modify p f).heap p = f (st.heap p) := by
  simp [State.modify]

theorem modify_heap_ne (st : State) (p q : Ptr) (f : Room → Room) (h : q ≠ p) :
    (st.modify p f).heap q = st.heap q := by
  simp [State.modify, Function.update_noteq h]

/-! ## The handler: join and relay -/

/-- C1. Join step of `handleWebSocket`: on a `join` message with roomId `r`
and userId `u` read on connection `c`, in every state, the step takes the
room `getOrCreateRoom` gives for `r` (which the registry then maps `r` to),
binds `c` to `u` in it and changes no other binding and no other room,
records room, userId and roomId in the local variables, and its writes are:
first one `users` message to `c` carrying `getUsers` of the room as it was
before `c` was added, then, in some order, exactly one `user-joined` with
userId `u` to every connection registered in the room other than `c`, and
nothing else; no write after the first goes to `c`. -/
theorem join_step (env : Env) (st : State) (loc : Locals) (c : Conn) (msg : Message)
    (hjoin : msg.Typ = "join") :
    let r := getOrCreateRoom st msg.RoomID
    let before := r.2.heap r.1
    let out := handleMessage env c st loc msg
    out.1.rooms.lookup msg.RoomID = some r.1
    ∧ out.1 = r.2.modify r.1 (fun room => room.addClient c msg.UserID)
    ∧ out.2.1 = { currentRoom := some r.1, currentUserID := msg.UserID,
                  currentRoomID := msg.RoomID }
    ∧ (out.1.heap r.1).clients.lookup c = some msg.UserID
    ∧ (∀ k, k ≠ c → (out.1.heap r.1).clients.lookup k = before.clients.lookup k)
    ∧ ∃ ws, out.2.2
          = writeJSON env c { Typ := "users", Users := before.getUsers env } :: ws
        ∧ ws.Perm (((out.1.heap r.1).clients.keys.filter (fun k => decide (k ≠ c))).map
            (fun k => writeJSON env k { Typ := "user-joined", UserID := msg.UserID }))
        ∧ ∀ w ∈ ws, w.conn ≠ c := by
  intro r before out
  have hout : out = (r.2.modify r.1 (fun room => room.addClient c msg.UserID),
      { currentRoom := some r.1, currentUserID := msg.UserID, currentRoomID := msg.RoomID },
      writeJSON env c { Typ := "users", Users := before.getUsers env } ::
        ((r.2.modify r.1 (fun room => room.addClient c msg.UserID)).heap r.1).broadcast env
          { Typ := "user-joined", UserID := msg.UserID } (some c)) := by
    simp only [out, handleMessage, hjoin, if_true]
  have hperm := broadcast_perm env
      ((r.2.modify r.1 (fun room => room.addClient c msg.UserID)).heap r.1)
      { Typ := "user-joined", UserID := msg.UserID } (some c)
  rw [hout]
  refine ⟨?_, rfl, rfl, ?_, ?_, _, rfl, ?_, ?_⟩
  · exact getOrCreateRoom_lookup st msg.RoomID
  · simp [modify_heap_self, Room.addClient, AList.lookup_insert]
  · intro k hk
    simp [modify_heap_self, Room.addClient, AList.lookup_insert_ne hk, before]
  · simpa using hperm
  · intro w hw
    have := hperm.subset hw
    simp only [List.mem_map, List.mem_filter] at this
    obtain ⟨k, ⟨_, hk⟩, rfl⟩ := this
    simpa [writeJSON] using hk

/-- Witness for C1: `bob` joins `r1` on connection 2 after `alice` joined on
connection 1; the writes are `users [alice]` to 2, then `user-joined bob` to 1. -/
theorem join_step_witness :
    (joinMsg "r1" "bob").Typ = "join"
    ∧ ∃ ws, (handleMessage Env.plain 2 demoSysAlice.st Locals.init (joinMsg "r1" "bob")).2.2
          = writeJSON Env.plain 2 { Typ := "users", Users := ["alice"] } :: ws
        ∧ ws.Perm [writeJSON Env.plain 1 { Typ := "user-joined", UserID := "bob" }]
        ∧ ∀ w ∈ ws, w.conn ≠ 2 :=
  ⟨rfl, (join_step Env.plain demoSysAlice.st Locals.init 2 (joinMsg "r1" "bob") rfl).2.2.2.2.2⟩

/-- C2. Relay step of `handleWebSocket`: when the handler of a connection
has a room bound and reads an `offer`, `answer` or `ice-candidate` whose
targetId is the userID of some connection of that room, the step writes
exactly one message, to a connection of the room bound to targetId; that
message has the type of the inbound one, the userId recorded by the handler
at join time, and the inbound sdp (offer, answer) or ice (ice-candidate)
payload.  The shared state (registry and every room) and the local variables
are unchanged. -/
theorem relay_step (env : Env) (st : State) (loc : Locals) (c : Conn) (msg : Message)
    (room : Ptr) (hroom : loc.currentRoom = some room)
    (htyp : msg.Typ = "offer" ∨ msg.Typ = "answer" ∨ msg.Typ = "ice-candidate")
    (htarget : ∃ k, (st.heap room).clients.lookup k = some msg.TargetID) :
    (handleMessage env c st loc msg).1 = st
    ∧ (handleMessage env c st loc msg).2.1 = loc
    ∧ ∃ k m, (st.heap room).clients.lookup k = some msg.TargetID
        ∧ (handleMessage env c st loc msg).2.2 = [writeJSON env k m]
        ∧ m.Typ = msg.Typ ∧ m.UserID = loc.currentUserID
        ∧ (msg.Typ = "offer" ∨ msg.Typ = "answer" → m.SDP = msg.SDP)
        ∧ (msg.Typ = "ice-candidate" → m.ICE = msg.ICE) := by
  rcases htyp with h | h | h
  · obtain ⟨k, hk, hsend⟩ := sendToUser_hit env (st.heap room) msg.TargetID
      { Typ := "offer", UserID := loc.currentUserID, SDP := msg.SDP } htarget
    simp only [handleMessage, h, hroom]
    refine ⟨rfl, rfl, k, _, hk, hsend, rfl, rfl, fun _ => rfl, fun hc => absurd hc (by decide)⟩
  · obtain ⟨k, hk, hsend⟩ := sendToUser_hit env (st.heap room) msg.TargetID
      { Typ := "answer", UserID := loc.currentUserID, SDP := msg.SDP } htarget
    simp only [handleMessage, h, hroom]
    refine ⟨rfl, rfl, k, _, hk, hsend, rfl, rfl, fun _ => rfl, fun hc => absurd hc (by decide)⟩
  · obtain ⟨k, hk, hsend⟩ := sendToUser_hit env (st.heap room) msg.TargetID
      { Typ := "ice-candidate", UserID := loc.currentUserID, ICE := msg.ICE } htarget
    simp only [handleMessage, h, hroom]
    refine ⟨rfl, rfl, k, _, hk, hsend, rfl, rfl, fun hc => ?_, fun _ => rfl⟩
    rcases hc with hc | hc <;> exact absurd hc (by decide)

/-- Witness for C2: in room `r1` with `alice` on connection 1 and `bob` on
connection 2, connection 2 sends an offer for `alice`. -/
theorem relay_step_witness :
    (demoSys.locals 2).currentRoom = some 0
    ∧ (demoOffer.Typ = "offer" ∨ demoOffer.Typ = "answer" ∨ demoOffer.Typ = "ice-candidate")
    ∧ (∃ k, (demoSys.st.heap 0).clients.lookup k = some demoOffer.TargetID)
    ∧ (handleMessage Env.plain 2 demoSys.st (demoSys.locals 2) demoOffer).2.1 = demoSys.locals 2
    ∧ ∃ k m, (demoSys.st.heap 0).clients.lookup k = some demoOffer.TargetID
        ∧ (handleMessage Env.plain 2 demoSys.st (demoSys.locals 2) demoOffer).2.2
            = [writeJSON Env.plain k m]
        ∧ m.Typ = demoOffer.Typ ∧ m.UserID = (demoSys.locals 2).currentUserID
        ∧ (demoOffer.Typ = "offer" ∨ demoOffer.Typ = "answer" → m.SDP = demoOffer.SDP)
        ∧ (demoOffer.Typ = "ice-candidate" → m.ICE = demoOffer.ICE) :=
  ⟨by decide, Or.inl rfl, ⟨1, by decide⟩,
    (relay_step Env.plain demoSys.st (demoSys.locals 2) 2 demoOffer 0 (by decide) (Or.inl rfl)
      ⟨1, by decide⟩).2⟩

/-! ## Which rooms a step can change -/

theorem getOrCreateRoom_of_lookup (st : State) (roomID : String) (p : Ptr)
    (h : st.rooms.lookup roomID = some p) : getOrCreateRoom st roomID = (p, st) := by
  simp [getOrCreateRoom, h]

theorem getOrCreateRoom_new (st : State) (roomID : String)
    (h : st.rooms.lookup roomID = none) :
    getOrCreateRoom st roomID
      = (st.next, { heap := Function.update st.heap st.next Room.empty,
                    next := st.next + 1,
                    rooms := st.rooms.insert roomID st.next }) := by
  simp [getOrCreateRoom, h]

/-- Membership after `getOrCreateRoom`: no room gains a member. -/
theorem getOrCreateRoom_member (st : State) (roomID : String) (k : Conn) (q : Ptr)
    (h : k ∈ ((getOrCreateRoom st roomID).2.heap q).clients) : k ∈ (st.heap q).clients := by
  cases hl : st.rooms.lookup roomID with
  | some p => rwa [getOrCreateRoom_of_lookup st roomID p hl] at h
  | none =>
    rw [getOrCreateRoom_new st roomID hl] at h
    by_cases hq : q = st.next
    · subst hq
      simp [Room.empty] at h
    · simpa [Function.update_noteq hq] using h

theorem removeClient_member (st : State) (p q : Ptr) (c k : Conn)
    (h : k ∈ ((st.modify p (fun r => r.removeClient c)).heap q).clients) :
    k ∈ (st.heap q).clients := by
  by_cases hq : q = p
  · subst hq
    rw [modify_heap_self] at h
    exact (AList.mem_erase.mp h).2
  · rwa [modify_heap_ne st p q _ hq] at h

theorem handleMessage_join (env : Env) (c : Conn) (st : State) (loc : Locals) (msg : Message)
    (hjoin : msg.Typ = "join") :
    (handleMessage env c st loc msg).1
      = (getOrCreateRoom st msg.RoomID).2.modify (getOrCreateRoom st msg.RoomID).1
          (fun room => room.addClient c msg.UserID) := by
  simp only [handleMessage, hjoin, if_true]

theorem handleMessage_join_locals (env : Env) (c : Conn) (st : State) (loc : Locals)
    (msg : Message) (hjoin : msg.Typ = "join") :
    (handleMessage env c st loc msg).2.1
      = { currentRoom := some (getOrCreateRoom st msg.RoomID).1, currentUserID := msg.UserID,
          currentRoomID := msg.RoomID } := by
  simp only [handleMessage, hjoin, if_true]

/-- A message other than `join` leaves the local variables as they are. -/
theorem handleMessage_locals (env : Env) (c : Conn) (st : State) (loc : Locals)
    (msg : Message) (hjoin : msg.Typ ≠ "join") :
    (handleMessage env c st loc msg).2.1 = loc := by
  unfold handleMessage
  simp only [hjoin, if_false]
  split_ifs <;> cases loc.currentRoom <;> rfl

/-- A message other than `join` leaves the shared state as it is or removes
the connection from its current room. -/
theorem handleMessage_state (env : Env) (c : Conn) (st : State) (loc : Locals)
    (msg : Message) (hjoin : msg.Typ ≠ "join") :
    (handleMessage env c st loc msg).1 = st
    ∨ ∃ p, loc.currentRoom = some p ∧ msg.Typ = "leave" ∧
        (handleMessage env c st loc msg).1 = st.modify p (fun r => r.removeClient c) := by
  unfold handleMessage
  simp only [hjoin, if_false]
  split_ifs with h1 h2 h3 h4
  · cases loc.currentRoom <;> exact Or.inl rfl
  · cases loc.currentRoom <;> exact Or.inl rfl
  · cases loc.currentRoom <;> exact Or.inl rfl
  · cases hr : loc.currentRoom with
    | none => exact Or.inl rfl
    | some p => exact Or.inr ⟨p, rfl, h4, rfl⟩
  · exact Or.inl rfl

theorem join_member (env : Env) (c : Conn) (st : State) (loc : Locals) (msg : Message)
    (hjoin : msg.Typ = "join") (k : Conn) (q : Ptr)
    (h : k ∈ ((handleMessage env c st loc msg).1.heap q).clients) :
    (q = (getOrCreateRoom st msg.RoomID).1 ∧ k = c) ∨ k ∈ (st.heap q).clients := by
  rw [handleMessage_join env c st loc msg hjoin] at h
  by_cases hq : q = (getOrCreateRoom st msg.RoomID).1
  · rw [hq, modify_heap_self] at h
    rcases (AList.mem_insert _).mp h with hk | hk
    · exact Or.inl ⟨hq, hk⟩
    · exact Or.inr (hq ▸ getOrCreateRoom_member st msg.RoomID k _ hk)
  · rw [modify_heap_ne _ _ _ _ hq] at h
    exact Or.inr (getOrCreateRoom_member st msg.RoomID k q h)

theorem nonjoin_member (env : Env) (c : Conn) (st : State) (loc : Locals) (msg : Message)
    (hjoin : msg.Typ ≠ "join") (k : Conn) (q : Ptr)
    (h : k ∈ ((handleMessage env c st loc msg).1.heap q).clients) : k ∈ (st.heap q).clients := by
  rcases handleMessage_state env c st loc msg hjoin with hs | ⟨p, _, _, hs⟩
  · rwa [hs] at h
  · rw [hs] at h
    exact removeClient_member st p q c k h

theorem cleanup_member (env : Env) (c : Conn) (st : State) (loc : Locals) (k : Conn) (q : Ptr)
    (h : k ∈ ((cleanup env c st loc).1.heap q).clients) : k ∈ (st.heap q).clients := by
  unfold cleanup at h
  cases hr : loc.currentRoom with
  | none => simpa [hr] using h
  | some p =>
    simp only [hr] at h
    exact removeClient_member st p q c k h

/-! ## The single-room invariant -/

theorem singleRoom_step (s : Sys) (x : Step) (hs : SingleRoom s) (hx : JoinsOneRoom s x) :
    SingleRoom (sysStep s x).1 := by
  intro k q1 q2 h1 h2
  unfold sysStep at h1 h2
  cases hev : x.ev with
  | readError =>
    simp only [hev] at h1 h2
    exact hs k q1 q2 (cleanup_member _ _ _ _ k q1 h1) (cleanup_member _ _ _ _ k q2 h2)
  | recv msg =>
    simp only [hev] at h1 h2
    by_cases hjoin : msg.Typ = "join"
    · have hguard : ∀ q, x.conn ∈ (s.st.heap q).clients →
          q = (getOrCreateRoom s.st msg.RoomID).1 := by
        intro q hq
        rw [getOrCreateRoom_of_lookup s.st msg.RoomID q (hx msg hev hjoin q hq)]
      rcases join_member _ _ _ _ msg hjoin k q1 h1 with ⟨e1, hk1⟩ | m1 <;>
        rcases join_member _ _ _ _ msg hjoin k q2 h2 with ⟨e2, hk2⟩ | m2
      · rw [e1, e2]
      · rw [e1, hguard q2 (hk1 ▸ m2)]
      · rw [e2, hguard q1 (hk2 ▸ m1)]
      · exact hs k q1 q2 m1 m2
    · exact hs k q1 q2 (nonjoin_member _ _ _ _ msg hjoin k q1 h1)
        (nonjoin_member _ _ _ _ msg hjoin k q2 h2)

theorem singleRoom_run (s : Sys) (trace : List Step) (hs : SingleRoom s)
    (ht : Disciplined s trace) : SingleRoom (sysRun s trace).1 := by
  induction trace generalizing s with
  | nil => exact hs
  | cons x xs ih => exact ih (sysStep s x).1 (singleRoom_step s x hs ht.1) ht.2

theorem singleRoom_init : SingleRoom Sys.init := by
  intro k p q h _
  exact absurd h (AList.not_mem_empty k)

/-- C3, counterexample. From the empty registry, connection 1 joins `r1` and
then `r2`: it is then in the client maps of both rooms, which the registry
holds under `r1` and `r2`. -/
theorem single_room_fails :
    (sysRun Sys.init demoTwoRooms).1.st.rooms.lookup "r1" = some 0
    ∧ (sysRun Sys.init demoTwoRooms).1.st.rooms.lookup "r2" = some 1
    ∧ 1 ∈ ((sysRun Sys.init demoTwoRooms).1.st.heap 0).clients
    ∧ 1 ∈ ((sysRun Sys.init demoTwoRooms).1.st.heap 1).clients
    ∧ ¬ SingleRoom (sysRun Sys.init demoTwoRooms).1 := by
  refine ⟨by decide, by decide, by decide, by decide, fun h => ?_⟩
  exact absurd (h 1 0 1 (by decide) (by decide)) (by decide)

/-- C3, amended. In every state reached from the empty registry by handler
steps (join, relay, leave, unknown type, disconnect) of any connections, in
which a connection processes a join only when every client map that holds
it belongs to the room registered under the roomId of that join, every
connection is in the client map of at most one room. -/
theorem single_room_disciplined (trace : List Step) (h : Disciplined Sys.init trace) :
    SingleRoom (sysRun Sys.init trace).1 :=
  singleRoom_run Sys.init trace singleRoom_init h

theorem demoCall_disciplined : Disciplined Sys.init demoCall := by
  refine ⟨?_, ?_, ?_, ?_, trivial⟩
  · intro msg _ _ p hp
    exact absurd hp (AList.not_mem_empty _)
  · intro msg hev hj p hp
    rcases join_member Env.plain 1 State.init Locals.init (joinMsg "r1" "alice") rfl 2 p hp
      with ⟨_, h⟩ | h
    · exact absurd h (by decide)
    · exact absurd h (AList.not_mem_empty _)
  · intro msg hev hj
    cases hev
    exact absurd hj (by decide)
  · intro msg hev hj
    cases hev
    exact absurd hj (by decide)

/-- Witness for C3: the trace `demoCall` is disciplined. -/
theorem single_room_disciplined_witness :
    Disciplined Sys.init demoCall ∧ SingleRoom (sysRun Sys.init demoCall).1 :=
  ⟨demoCall_disciplined, single_room_disciplined demoCall demoCall_disciplined⟩

/-! ## Local variables and membership along a trace -/

theorem IsRelay.ne_join {msg : Message} (h : IsRelay msg) : msg.Typ ≠ "join" := by
  rcases h with h | h | h <;> rw [h] <;> decide

theorem sysStep_locals_other (s : Sys) (x : Step) (c : Conn) (h : x.conn ≠ c) :
    (sysStep s x).1.locals c = s.locals c := by
  unfold sysStep
  cases x.ev with
  | readError => rfl
  | recv msg => simp [Function.update_noteq (Ne.symm h)]

theorem sysStep_locals (s : Sys) (x : Step) (c : Conn) (h : NoJoinOn c x) :
    (sysStep s x).1.locals c = s.locals c := by
  by_cases hc : x.conn = c
  · unfold sysStep
    cases hev : x.ev with
    | readError => rfl
    | recv msg =>
      subst hc
      simp [handleMessage_locals _ _ _ _ msg (h rfl msg hev)]
  · exact sysStep_locals_other s x c hc

theorem sysStep_not_member (s : Sys) (x : Step) (c : Conn) (p : Ptr) (h : NoJoinOn c x)
    (hc : c ∉ (s.st.heap p).clients) : c ∉ ((sysStep s x).1.st.heap p).clients := by
  intro hm
  unfold sysStep at hm
  cases hev : x.ev with
  | readError =>
    simp only [hev] at hm
    exact hc (cleanup_member _ _ _ _ c p hm)
  | recv msg =>
    simp only [hev] at hm
    by_cases hjoin : msg.Typ = "join"
    · rcases join_member _ _ _ _ msg hjoin c p hm with ⟨_, hk⟩ | hk
      · exact h hk.symm msg hev hjoin
      · exact hc hk
    · exact hc (nonjoin_member _ _ _ _ msg hjoin c p hm)

theorem sysRun_locals (s : Sys) (trace : List Step) (c : Conn)
    (h : ∀ x ∈ trace, NoJoinOn c x) : (sysRun s trace).1.locals c = s.locals c := by
  induction trace generalizing s with
  | nil => rfl
  | cons x xs ih =>
    have hx := sysStep_locals s x c (h x (List.mem_cons_self _ _))
    have := ih (sysStep s x).1 (fun y hy => h y (List.mem_cons_of_mem _ hy))
    simpa [sysRun, hx] using this

theorem sysRun_not_member (s : Sys) (trace : List Step) (c : Conn) (p : Ptr)
    (h : ∀ x ∈ trace, NoJoinOn c x) (hc : c ∉ (s.st.heap p).clients) :
    c ∉ ((sysRun s trace).1.st.heap p).clients := by
  induction trace generalizing s with
  | nil => exact hc
  | cons x xs ih =>
    exact ih (sysStep s x).1 (fun y hy => h y (List.mem_cons_of_mem _ hy))
      (sysStep_not_member s x c p (h x (List.mem_cons_self _ _)) hc)

/-- What the handler does with a relayed type: nothing without a room, else `sendToUser`. -/
theorem handleMessage_relay (env : Env) (c : Conn) (st : State) (loc : Locals) (msg : Message)
    (h : IsRelay msg) :
    handleMessage env c st loc msg
      = (st, loc, match loc.currentRoom with
          | none => []
          | some room => (st.heap room).sendToUser env msg.TargetID
              (relayOf loc.currentUserID msg)) := by
  rcases h with h | h | h <;> simp only [handleMessage, relayOf, h] <;>
    cases loc.currentRoom <;> rfl

theorem handleMessage_leave (env : Env) (c : Conn) (st : State) (loc : Locals) (msg : Message)
    (h : msg.Typ = "leave") :
    handleMessage env c st loc msg
      = match loc.currentRoom with
        | none => (st, loc, [])
        | some room =>
          (st.modify room (fun r => r.removeClient c), loc,
            ((st.modify room (fun r => r.removeClient c)).heap room).broadcast env
              { Typ := "user-left", UserID := loc.currentUserID } none) := by
  simp only [handleMessage, h]
  cases loc.currentRoom <;> rfl

/-- C4, counterexample. `alice` and `bob` join `r1`, `bob` processes `leave`:
his handler still has the room bound, and his next offer for `alice` is not
dropped but written to the connection of `alice`. -/
theorem relay_after_leave_fails :
    ((sysRun Sys.init demoLeft).1.locals 2).currentRoom = some 0
    ∧ (sysStep (sysRun Sys.init demoLeft).1
        { env := Env.plain, conn := 2, ev := Event.recv demoOffer }).2
      = [{ conn := 1, err := false,
           msg := { Typ := "offer", UserID := "bob",
                    SDP := some { SDPType := 1, SDP := "v=0" } } }] := by
  constructor <;> decide

/-- C4, amended. A `leave` processed while a room is bound removes the
connection from that room but keeps the room bound in the handler: after
the leave and any further steps with no join on that connection, the local
variables are as before the leave and the connection is not in the room;
an offer, answer or ice-candidate read then changes nothing, and it is
written once, with the userId of the handler, to another connection of the
room bound to targetId when there is one; it is dropped (no write) exactly
when no connection of the room is bound to targetId. -/
theorem relay_after_leave (s0 : Sys) (c : Conn) (room : Ptr) (env : Env) (lv : Message)
    (rest : List Step) (env2 : Env) (msg : Message)
    (hroom : (s0.locals c).currentRoom = some room)
    (hleave : lv.Typ = "leave")
    (hrest : ∀ x ∈ rest, NoJoinOn c x)
    (htyp : IsRelay msg) :
    let s := (sysRun s0 ({ env := env, conn := c, ev := Event.recv lv } :: rest)).1
    let out := sysStep s { env := env2, conn := c, ev := Event.recv msg }
    s.locals c = s0.locals c
    ∧ c ∉ (s.st.heap room).clients
    ∧ out.1 = s
    ∧ ((∃ k, (s.st.heap room).clients.lookup k = some msg.TargetID) →
        ∃ k m, (s.st.heap room).clients.lookup k = some msg.TargetID ∧ k ≠ c
          ∧ out.2 = [writeJSON env2 k m]
          ∧ m.Typ = msg.Typ ∧ m.UserID = (s0.locals c).currentUserID)
    ∧ ((∀ k, (s.st.heap room).clients.lookup k ≠ some msg.TargetID) → out.2 = []) := by
  intro s out
  have hlv : NoJoinOn c { env := env, conn := c, ev := Event.recv lv } := by
    intro _ m hm
    cases hm
    rw [hleave]; decide
  have hall : ∀ x ∈ ({ env := env, conn := c, ev := Event.recv lv } :: rest : List Step),
      NoJoinOn c x := by
    intro x hx
    rcases List.mem_cons.mp hx with rfl | hx
    · exact hlv
    · exact hrest x hx
  have hloc : s.locals c = s0.locals c := sysRun_locals s0 _ c hall
  have hnot : c ∉ (s.st.heap room).clients := by
    apply sysRun_not_member _ rest c room hrest
    simp only [sysStep, handleMessage_leave _ _ _ _ lv hleave, hroom, modify_heap_self,
      Room.removeClient]
    intro hm
    exact (AList.mem_erase.mp hm).1 rfl
  have hout : out = (s, (s.st.heap room).sendToUser env2 msg.TargetID
      (relayOf (s0.locals c).currentUserID msg)) := by
    simp only [out, sysStep, handleMessage_relay _ _ _ _ msg htyp, hloc, hroom]
    rw [← hloc, Function.update_eq_self]
  refine ⟨hloc, hnot, by rw [hout], ?_, ?_⟩
  · intro ht
    obtain ⟨k, hk, hsend⟩ := sendToUser_hit env2 (s.st.heap room) msg.TargetID
      (relayOf (s0.locals c).currentUserID msg) ht
    refine ⟨k, relayOf (s0.locals c).currentUserID msg, hk, ?_, by rw [hout]; exact hsend, rfl, rfl⟩
    rintro rfl
    exact hnot (AList.lookup_isSome.mp (by rw [hk]; rfl))
  · intro ht
    rw [hout]
    exact sendToUser_miss env2 (s.st.heap room) msg.TargetID _ ht

/-- Witness for C4: after `bob` left `r1` and `alice` joined it again, an
offer of `bob` for `alice` is written to connection 1. -/
theorem relay_after_leave_witness :
    (demoSys.locals 2).currentRoom = some 0
    ∧ leaveMsg.Typ = "leave"
    ∧ (∀ x ∈ [demoJoinAlice], NoJoinOn 2 x)
    ∧ IsRelay demoOffer
    ∧ ∃ k m, ((sysRun demoSys [{ env := Env.plain, conn := 2, ev := Event.recv leaveMsg },
                demoJoinAlice]).1.st.heap 0).clients.lookup k = some demoOffer.TargetID
        ∧ k ≠ 2
        ∧ (sysStep (sysRun demoSys [{ env := Env.plain, conn := 2, ev := Event.recv leaveMsg },
                demoJoinAlice]).1 { env := Env.rev, conn := 2, ev := Event.recv demoOffer }).2
            = [writeJSON Env.rev k m]
        ∧ m.Typ = demoOffer.Typ ∧ m.UserID = (demoSys.locals 2).currentUserID :=
  have hrest : ∀ x ∈ [demoJoinAlice], NoJoinOn 2 x := by
    intro x hx
    rw [List.mem_singleton] at hx
    subst hx
    intro h
    exact absurd h (by decide)
  ⟨by decide, rfl, hrest, Or.inl rfl,
    (relay_after_leave demoSys 2 0 Env.plain leaveMsg [demoJoinAlice] Env.rev demoOffer
      (by decide) rfl hrest (Or.inl rfl)).2.2.2.1 ⟨1, by decide⟩⟩

/-! ## Messages without a room, leave and disconnect -/

/-- C5. A connection whose handler has processed no join: from a state in
which the handler of `c` is at its start, after any steps none of which is a
join read on `c`, an offer, answer or ice-candidate read on `c` writes
nothing to any connection and leaves the whole server (registry, every room,
and the local variables of every handler) as it was. -/
theorem unjoined_relay_dropped (s0 : Sys) (c : Conn) (trace : List Step) (env : Env)
    (msg : Message)
    (hstart : s0.locals c = Locals.init)
    (hnever : ∀ x ∈ trace, NoJoinOn c x)
    (htyp : IsRelay msg) :
    sysStep (sysRun s0 trace).1 { env := env, conn := c, ev := Event.recv msg }
      = ((sysRun s0 trace).1, []) := by
  have hloc : (sysRun s0 trace).1.locals c = Locals.init :=
    (sysRun_locals s0 trace c hnever).trans hstart
  have hnone : ((sysRun s0 trace).1.locals c).currentRoom = none := by rw [hloc]; rfl
  simp only [sysStep, handleMessage_relay _ _ _ _ msg htyp, hnone, Function.update_eq_self]

/-- Witness for C5: `alice` has joined on connection 1; connection 2, which
never joined, sends an offer for her. -/
theorem unjoined_relay_dropped_witness :
    Sys.init.locals 2 = Locals.init
    ∧ (∀ x ∈ [demoJoinAlice], NoJoinOn 2 x)
    ∧ IsRelay demoOffer
    ∧ sysStep (sysRun Sys.init [demoJoinAlice]).1
        { env := Env.plain, conn := 2, ev := Event.recv demoOffer }
      = ((sysRun Sys.init [demoJoinAlice]).1, []) :=
  have hnever : ∀ x ∈ [demoJoinAlice], NoJoinOn 2 x := by
    intro x hx
    rw [List.mem_singleton] at hx
    subst hx
    intro h
    exact absurd h (by decide)
  ⟨rfl, hnever, Or.inl rfl,
    unjoined_relay_dropped Sys.init 2 [demoJoinAlice] Env.plain demoOffer rfl hnever (Or.inl rfl)⟩

theorem removeClient_lookup_self (room : Room) (c : Conn) :
    (room.removeClient c).clients.lookup c = none :=
  AList.lookup_erase c room.clients

theorem removeClient_lookup_ne (room : Room) (c k : Conn) (h : k ≠ c) :
    (room.removeClient c).clients.lookup k = room.clients.lookup k :=
  AList.lookup_erase_ne h

theorem removeClient_not_mem (room : Room) (c : Conn) : c ∉ (room.removeClient c).clients :=
  fun h => (AList.mem_erase.mp h).1 rfl

theorem removeClient_absent (room : Room) (c : Conn) (h : c ∉ room.clients) :
    room.removeClient c = room := by
  cases room with
  | mk clients =>
    simp only [Room.removeClient, Room.mk.injEq]
    exact AList.ext (List.kerase_of_not_mem_keys h)

theorem removeClient_twice (room : Room) (c : Conn) :
    (room.removeClient c).removeClient c = room.removeClient c :=
  removeClient_absent _ c (removeClient_not_mem room c)

theorem modify_removeClient_twice (st : State) (p : Ptr) (c : Conn) :
    (st.modify p (fun r => r.removeClient c)).modify p (fun r => r.removeClient c)
      = st.modify p (fun r => r.removeClient c) := by
  simp [State.modify, removeClient_twice]

/-- C6. Leave step of `handleWebSocket`: on `leave`, a handler with room
`R` bound removes its connection `c` from the client map of `R` (every other
binding of `R` and every other room is unchanged, the local variables too)
and then writes, in some order, exactly one `user-left` with the userID of
the handler to every connection registered in `R` after the removal, no one
excluded; a handler with no room bound does nothing. -/
theorem leave_step (env : Env) (st : State) (loc : Locals) (c : Conn) (msg : Message)
    (hleave : msg.Typ = "leave") :
    (∀ room, loc.currentRoom = some room →
      (handleMessage env c st loc msg).1 = st.modify room (fun r => r.removeClient c)
      ∧ (handleMessage env c st loc msg).2.1 = loc
      ∧ c ∉ ((handleMessage env c st loc msg).1.heap room).clients
      ∧ (∀ k, k ≠ c → ((handleMessage env c st loc msg).1.heap room).clients.lookup k
            = (st.heap room).clients.lookup k)
      ∧ (handleMessage env c st loc msg).2.2.Perm
          (((handleMessage env c st loc msg).1.heap room).clients.keys.map
            (fun k => writeJSON env k { Typ := "user-left", UserID := loc.currentUserID })))
    ∧ (loc.currentRoom = none → handleMessage env c st loc msg = (st, loc, [])) := by
  constructor
  · intro room hroom
    have h : handleMessage env c st loc msg
        = (st.modify room (fun r => r.removeClient c), loc,
            ((st.modify room (fun r => r.removeClient c)).heap room).broadcast env
              { Typ := "user-left", UserID := loc.currentUserID } none) := by
      rw [handleMessage_leave env c st loc msg hleave, hroom]
    rw [h]
    refine ⟨rfl, rfl, ?_, ?_, broadcast_none_perm env _ _⟩
    · show c ∉ ((st.modify room (fun r => r.removeClient c)).heap room).clients
      rw [modify_heap_self]
      exact removeClient_not_mem _ c
    · intro k hk
      show ((st.modify room (fun r => r.removeClient c)).heap room).clients.lookup k = _
      rw [modify_heap_self]
      exact removeClient_lookup_ne _ c k hk
  · intro hnone
    simp only [handleMessage_leave env c st loc msg hleave, hnone]

/-- Witness for C6: `alice` leaves `r1`; `bob` on connection 2 is told. -/
theorem leave_step_witness :
    leaveMsg.Typ = "leave"
    ∧ (handleMessage Env.plain 1 demoSys.st (demoSys.locals 1) leaveMsg).2.2.Perm
        [writeJSON Env.plain 2 { Typ := "user-left", UserID := "alice" }] :=
  ⟨rfl, ((leave_step Env.plain demoSys.st (demoSys.locals 1) 1 leaveMsg rfl).1 0
    (by decide)).2.2.2.2⟩

theorem cleanup_eq (env : Env) (c : Conn) (st : State) (loc : Locals) :
    cleanup env c st loc
      = match loc.currentRoom with
        | none => (st, [])
        | some room =>
          (st.modify room (fun r => r.removeClient c),
            ((st.modify room (fun r => r.removeClient c)).heap room).broadcast env
              { Typ := "user-left", UserID := loc.currentUserID } none) := by
  unfold cleanup
  cases loc.currentRoom <;> rfl

theorem sysStep_keeps_room (s : Sys) (x : Step) (c : Conn)
    (h : (s.locals c).currentRoom ≠ none) : ((sysStep s x).1.locals c).currentRoom ≠ none := by
  by_cases hj : IsJoinOn c x
  · obtain ⟨hc, msg, hev, hjoin⟩ := hj
    subst hc
    simp [sysStep, hev, handleMessage_join_locals _ _ _ _ msg hjoin]
  · have : NoJoinOn c x := fun hc msg hev hjoin => hj ⟨hc, msg, hev, hjoin⟩
    rwa [sysStep_locals s x c this]

theorem sysRun_keeps_room (s : Sys) (trace : List Step) (c : Conn)
    (h : (s.locals c).currentRoom ≠ none) :
    ((sysRun s trace).1.locals c).currentRoom ≠ none := by
  induction trace generalizing s with
  | nil => exact h
  | cons x xs ih => exact ih (sysStep s x).1 (sysStep_keeps_room s x c h)

theorem sysRun_joined (s : Sys) (trace : List Step) (c : Conn)
    (h : ∃ x ∈ trace, IsJoinOn c x) : ((sysRun s trace).1.locals c).currentRoom ≠ none := by
  induction trace generalizing s with
  | nil => simp at h
  | cons x xs ih =>
    by_cases hj : IsJoinOn c x
    · apply sysRun_keeps_room (sysStep s x).1 xs c
      obtain ⟨hc, msg, hev, hjoin⟩ := hj
      subst hc
      simp [sysStep, hev, handleMessage_join_locals _ _ _ _ msg hjoin]
    · apply ih (sysStep s x).1
      obtain ⟨y, hy, hyj⟩ := h
      rcases List.mem_cons.mp hy with rfl | hy
      · exact absurd hyj hj
      · exact ⟨y, hy, hyj⟩

theorem exit_unjoined (s : Sys) (c : Conn) (env : Env)
    (h : (s.locals c).currentRoom = none) :
    sysStep s { env := env, conn := c, ev := Event.readError } = (s, []) := by
  simp only [sysStep, cleanup_eq, h]

theorem exit_joined (s : Sys) (c : Conn) (room : Ptr) (env : Env)
    (h : (s.locals c).currentRoom = some room) :
    sysStep s { env := env, conn := c, ev := Event.readError }
      = ({ st := s.st.modify room (fun r => r.removeClient c), locals := s.locals },
        ((s.st.modify room (fun r => r.removeClient c)).heap room).broadcast env
          { Typ := "user-left", UserID := (s.locals c).currentUserID } none) := by
  simp only [sysStep, cleanup_eq, h]

theorem leave_joined (s : Sys) (c : Conn) (room : Ptr) (env : Env) (lv : Message)
    (hleave : lv.Typ = "leave") (h : (s.locals c).currentRoom = some room) :
    sysStep s { env := env, conn := c, ev := Event.recv lv }
      = ({ st := s.st.modify room (fun r => r.removeClient c), locals := s.locals },
        ((s.st.modify room (fun r => r.removeClient c)).heap room).broadcast env
          { Typ := "user-left", UserID := (s.locals c).currentUserID } none) := by
  simp only [sysStep, handleMessage_leave _ _ _ _ lv hleave, h, Function.update_eq_self]

/-- C7. Clean-up when the loop ends.  Let the handler of `c` start at its
first line and let any steps follow.  If one of them was a join read on `c`,
then a read error on `c` (read failure, close, or a payload that does not
parse) finds a room `R` bound, removes `c` from `R`, changes nothing else,
and writes one `user-left` with the userID of the handler to every
connection remaining in `R`; this does not depend on a `leave` having been
processed.  If `leave` is processed and then the read error, each of the two
steps writes one `user-left` to every connection remaining after the leave
(two in all), and the shared state after the disconnect is the state after
the leave.  If no step was a join read on `c`, the read error writes nothing
and changes nothing. -/
theorem cleanup_on_exit (s0 : Sys) (c : Conn) (trace : List Step) (env env2 : Env)
    (lv : Message) (hstart : s0.locals c = Locals.init) (hleave : lv.Typ = "leave") :
    let s := (sysRun s0 trace).1
    let out := sysStep s { env := env, conn := c, ev := Event.readError }
    let a := sysStep s { env := env, conn := c, ev := Event.recv lv }
    let b := sysStep a.1 { env := env2, conn := c, ev := Event.readError }
    ((∃ x ∈ trace, IsJoinOn c x) →
      ∃ room, (s.locals c).currentRoom = some room
        ∧ out.1.st = s.st.modify room (fun r => r.removeClient c)
        ∧ out.1.locals = s.locals
        ∧ c ∉ (out.1.st.heap room).clients
        ∧ (∀ k, k ≠ c → (out.1.st.heap room).clients.lookup k
              = (s.st.heap room).clients.lookup k)
        ∧ out.2.Perm ((out.1.st.heap room).clients.keys.map
            (fun k => writeJSON env k { Typ := "user-left", UserID := (s.locals c).currentUserID }))
        ∧ b.1.st = a.1.st
        ∧ a.2.Perm ((a.1.st.heap room).clients.keys.map
            (fun k => writeJSON env k { Typ := "user-left", UserID := (s.locals c).currentUserID }))
        ∧ b.2.Perm ((a.1.st.heap room).clients.keys.map
            (fun k => writeJSON env2 k { Typ := "user-left", UserID := (s.locals c).currentUserID })))
    ∧ ((∀ x ∈ trace, NoJoinOn c x) → out = (s, [])) := by
  intro s out a b
  constructor
  · intro hj
    obtain ⟨room, hroom⟩ := Option.ne_none_iff_exists'.mp (sysRun_joined s0 trace c hj)
    have hout : out = _ := exit_joined s c room env hroom
    have ha : a = _ := leave_joined s c room env lv hleave hroom
    have hb : b = ({ st := s.st.modify room (fun r => r.removeClient c), locals := s.locals },
        ((s.st.modify room (fun r => r.removeClient c)).heap room).broadcast env2
          { Typ := "user-left", UserID := (s.locals c).currentUserID } none) := by
      have hb0 : b = _ := exit_joined a.1 c room env2 (by rw [ha]; exact hroom)
      rw [hb0, ha]
      simp only [modify_removeClient_twice]
    refine ⟨room, hroom, by rw [hout], by rw [hout], ?_, ?_, ?_, by rw [hb, ha], ?_, ?_⟩
    · rw [hout]
      show c ∉ ((s.st.modify room (fun r => r.removeClient c)).heap room).clients
      rw [modify_heap_self]
      exact removeClient_not_mem _ c
    · intro k hk
      rw [hout]
      show ((s.st.modify room (fun r => r.removeClient c)).heap room).clients.lookup k = _
      rw [modify_heap_self]
      exact removeClient_lookup_ne _ c k hk
    · rw [hout]
      exact broadcast_none_perm env _ _
    · rw [ha]
      exact broadcast_none_perm env _ _
    · rw [hb, ha]
      exact broadcast_none_perm env2 _ _
  · intro hnever
    have hloc : s.locals c = Locals.init := (sysRun_locals s0 trace c hnever).trans hstart
    exact exit_unjoined s c env (by rw [hloc]; rfl)

/-- Witness for C7: `alice` (connection 1) and `bob` joined `r1`, then
connection 1 fails on read. -/
theorem cleanup_on_exit_witness :
    Sys.init.locals 1 = Locals.init
    ∧ leaveMsg.Typ = "leave"
    ∧ (∃ x ∈ [demoJoinAlice, demoJoinBob], IsJoinOn 1 x)
    ∧ ∃ room, (demoSys.locals 1).currentRoom = some room
        ∧ (sysStep demoSys { env := Env.plain, conn := 1, ev := Event.readError }).1.st
            = demoSys.st.modify room (fun r => r.removeClient 1) :=
  have hj : ∃ x ∈ [demoJoinAlice, demoJoinBob], IsJoinOn 1 x :=
    ⟨demoJoinAlice, List.mem_cons_self _ _, rfl, joinMsg "r1" "alice", rfl, rfl⟩
  ⟨rfl, rfl, hj,
    match (cleanup_on_exit Sys.init 1 [demoJoinAlice, demoJoinBob] Env.plain Env.rev leaveMsg
      rfl rfl).1 hj with
    | ⟨room, h1, h2, _⟩ => ⟨room, h1, h2⟩⟩

/-! ## The registry and the room methods, alone -/

theorem getOrCreateRoom_keeps (rm : State) (roomID other : String) (p : Ptr)
    (h : rm.rooms.lookup roomID = some p) :
    (getOrCreateRoom rm other).2.rooms.lookup roomID = some p := by
  cases ho : rm.rooms.lookup other with
  | some q => rwa [getOrCreateRoom_of_lookup rm other q ho]
  | none =>
    rw [getOrCreateRoom_new rm other ho]
    have hne : roomID ≠ other := by
      rintro rfl
      rw [h] at ho
      cases ho
    simpa [AList.lookup_insert_ne hne] using h

theorem getOrCreateRooms_keeps (rm : State) (ids : List String) (roomID : String) (p : Ptr)
    (h : rm.rooms.lookup roomID = some p) :
    (getOrCreateRooms rm ids).1.rooms.lookup roomID = some p := by
  induction ids generalizing rm with
  | nil => exact h
  | cons other rest ih =>
    exact ih (getOrCreateRoom rm other).2 (getOrCreateRoom_keeps rm roomID other p h)

theorem getOrCreateRoom_allocated (rm : State) (roomID : String) (h : rm.Allocated) :
    (getOrCreateRoom rm roomID).2.Allocated := by
  cases ho : rm.rooms.lookup roomID with
  | some q => rwa [getOrCreateRoom_of_lookup rm roomID q ho]
  | none =>
    rw [getOrCreateRoom_new rm roomID ho]
    intro id p hp
    by_cases hid : id = roomID
    · subst hid
      simp only [AList.lookup_insert, Option.some.injEq] at hp
      subst hp
      exact Nat.lt_succ_self _
    · simp only [AList.lookup_insert_ne hid] at hp
      exact Nat.lt_succ_of_lt (h id p hp)

/-- C8. Identity stability of `getOrCreateRoom`.  If the registry maps
roomID to a room, the call returns that room and leaves the whole state,
hence the members of the room, as it was.  Otherwise it returns the next
free address, stores it under roomID, makes the room there empty and leaves
every other room as it was; when all registered rooms have addresses below
the next free one, the returned room is none of them.  In a serialised
sequence of calls, a call for roomID made after an earlier call for roomID,
with any calls for any roomIDs in between, returns the room the earlier call
returned and leaves the state unchanged, and the registry maps roomID to that
one room. -/
theorem getOrCreateRoom_stable (rm : State) (roomID : String) :
    (∀ p, rm.rooms.lookup roomID = some p → getOrCreateRoom rm roomID = (p, rm))
    ∧ (rm.rooms.lookup roomID = none →
        (getOrCreateRoom rm roomID).1 = rm.next
        ∧ (getOrCreateRoom rm roomID).2.rooms = rm.rooms.insert roomID rm.next
        ∧ (getOrCreateRoom rm roomID).2.heap rm.next = Room.empty
        ∧ (∀ q, q ≠ rm.next → (getOrCreateRoom rm roomID).2.heap q = rm.heap q)
        ∧ (rm.Allocated → ∀ other, rm.rooms.lookup other ≠ some rm.next))
    ∧ (∀ between : List String,
        getOrCreateRoom (getOrCreateRooms (getOrCreateRoom rm roomID).2 between).1 roomID
          = ((getOrCreateRoom rm roomID).1,
             (getOrCreateRooms (getOrCreateRoom rm roomID).2 between).1)
        ∧ (getOrCreateRooms (getOrCreateRoom rm roomID).2 between).1.rooms.lookup roomID
          = some (getOrCreateRoom rm roomID).1) := by
  refine ⟨fun p h => getOrCreateRoom_of_lookup rm roomID p h, fun h => ?_, fun between => ?_⟩
  · rw [getOrCreateRoom_new rm roomID h]
    refine ⟨rfl, rfl, by simp, fun q hq => by simp [Function.update_noteq hq], ?_⟩
    intro hall other ho
    exact Nat.lt_irrefl _ (hall other rm.next ho)
  · have h := getOrCreateRooms_keeps (getOrCreateRoom rm roomID).2 between roomID _
      (getOrCreateRoom_lookup rm roomID)
    exact ⟨getOrCreateRoom_of_lookup _ roomID _ h, h⟩

theorem addClient_entries_of_absent (room : Room) (c : Conn) (u : String)
    (h : c ∉ room.clients) :
    (room.addClient c u).clients.entries = ⟨c, u⟩ :: room.clients.entries :=
  AList.insert_entries_of_neg h

theorem addClients_users (room : Room) (joins : List (Conn × String))
    (hnd : (joins.map Prod.fst).Nodup) (hnew : ∀ c ∈ joins.map Prod.fst, c ∉ room.clients) :
    ((addClients room joins).clients.entries.map (fun e => e.2)).Perm
      (joins.map Prod.snd ++ room.clients.entries.map (fun e => e.2)) := by
  induction joins generalizing room with
  | nil => simp [addClients]
  | cons j rest ih =>
    rw [List.map_cons, List.nodup_cons] at hnd
    have hj : j.1 ∉ room.clients := hnew j.1 (by simp)
    have hrest : ∀ c ∈ rest.map Prod.fst, c ∉ (room.addClient j.1 j.2).clients := by
      intro c hc hm
      rcases (AList.mem_insert _).mp hm with h | h
      · exact hnd.1 (h ▸ hc)
      · exact hnew c (by simp only [List.map_cons]; exact List.mem_cons_of_mem _ hc) h
    have := ih (room.addClient j.1 j.2) hnd.2 hrest
    rw [addClient_entries_of_absent room j.1 j.2 hj] at this
    simp only [addClients, List.map_cons]
    exact this.trans (by simp)

/-- C9, counterexample. Two `addClient` calls on a fresh room with the same
connection and the userIDs `alice` and `bob`: `getUsers` returns only `bob`. -/
theorem getUsers_after_joins_fails :
    (addClients Room.empty [(1, "alice"), (1, "bob")]).getUsers Env.plain = ["bob"]
    ∧ ¬ (∀ u, u ∈ (addClients Room.empty [(1, "alice"), (1, "bob")]).getUsers Env.plain
          ↔ u ∈ [(1, "alice"), (1, "bob")].map Prod.snd) := by
  refine ⟨by decide, fun h => ?_⟩
  exact absurd ((h "alice").mpr (by decide)) (by decide)

/-- C9, amended. After N `addClient` calls with pairwise distinct
connections (and any userIDs) on a fresh empty room, with no `removeClient`,
`getUsers` returns a reordering of the list of the N joined userIDs, for
every iteration order; so the same userIDs, and each as often as joined. -/
theorem getUsers_after_joins (env : Env) (joins : List (Conn × String))
    (hnd : (joins.map Prod.fst).Nodup) :
    ((addClients Room.empty joins).getUsers env).Perm (joins.map Prod.snd) := by
  have h := addClients_users Room.empty joins hnd (fun c _ => AList.not_mem_empty c)
  have h2 : Room.empty.clients.entries = [] := rfl
  rw [h2, List.map_nil, List.append_nil] at h
  exact (getUsers_perm env _).trans h

/-- Witness for C9: three connections, two of them with the userID `alice`. -/
theorem getUsers_after_joins_witness :
    ([(1, "alice"), (2, "bob"), (3, "alice")].map Prod.fst).Nodup
    ∧ ((addClients Room.empty [(1, "alice"), (2, "bob"), (3, "alice")]).getUsers Env.rev).Perm
        ([(1, "alice"), (2, "bob"), (3, "alice")].map Prod.snd) :=
  ⟨by decide, getUsers_after_joins Env.rev [(1, "alice"), (2, "bob"), (3, "alice")] (by decide)⟩

/-- C10. `removeClient` is idempotent: it is a total function of the room
and the connection (it cannot fail); afterwards the connection is not in the
room and has no binding, the binding of every other connection is as before,
a second call gives the same room as the first, and removing a connection
that is not in the room gives back the same room. -/
theorem removeClient_idempotent (room : Room) (c : Conn) :
    c ∉ (room.removeClient c).clients
    ∧ (room.removeClient c).clients.lookup c = none
    ∧ (∀ k, k ≠ c → (room.removeClient c).clients.lookup k = room.clients.lookup k)
    ∧ (room.removeClient c).removeClient c = room.removeClient c
    ∧ (c ∉ room.clients → room.removeClient c = room) :=
  ⟨removeClient_not_mem room c, removeClient_lookup_self room c,
    fun k hk => removeClient_lookup_ne room c k hk, removeClient_twice room c,
    removeClient_absent room c⟩

/-! ## Broadcast, direct send and insertion -/

theorem keys_filter_count (m : Clients) (ex : Option Conn) (k : Conn) :
    (m.keys.filter (fun x => decide (some x ≠ ex))).count k
      = if k ∈ m ∧ some k ≠ ex then 1 else 0 := by
  have hnd : (m.keys.filter (fun x => decide (some x ≠ ex))).Nodup := m.keys_nodup.filter _
  by_cases h : k ∈ m ∧ some k ≠ ex
  · rw [if_pos h]
    apply List.count_eq_one_of_mem hnd
    exact List.mem_filter.mpr ⟨AList.mem_keys.mp h.1, by simpa using h.2⟩
  · rw [if_neg h]
    apply List.count_eq_zero_of_not_mem
    intro hm
    rw [List.mem_filter] at hm
    exact h ⟨AList.mem_keys.mpr hm.1, by simpa using hm.2⟩

theorem broadcast_conns_perm (env : Env) (room : Room) (msg : Message) (ex : Option Conn) :
    ((room.broadcast env msg ex).map (fun w => w.conn)).Perm
      (room.clients.keys.filter (fun k => decide (some k ≠ ex))) := by
  have h := (broadcast_perm env room msg ex).map (fun w => w.conn)
  simpa [List.map_map, Function.comp_def, writeJSON] using h

/-- C11. Partial-failure isolation of `broadcast`: for every room, message,
excluded connection (or none), iteration order and set of connections whose
write fails, every write of `broadcast` carries the message, goes to a
registered connection other than the excluded one and records the outcome of
that connection; every connection receives exactly one write if it is
registered and not excluded, and none otherwise, whether or not any write
fails; so every registered, not excluded connection whose write does not
fail gets the message.  `broadcast` returns writes only: the room is not
changed. -/
theorem broadcast_isolation (env : Env) (room : Room) (msg : Message) (ex : Option Conn) :
    (∀ w ∈ room.broadcast env msg ex,
        w.msg = msg ∧ w.conn ∈ room.clients ∧ some w.conn ≠ ex ∧ w.err = env.writeErr w.conn)
    ∧ (∀ k, ((room.broadcast env msg ex).map (fun w => w.conn)).count k
        = if k ∈ room.clients ∧ some k ≠ ex then 1 else 0)
    ∧ (∀ k, k ∈ room.clients → some k ≠ ex → env.writeErr k = false →
        ({ conn := k, msg := msg, err := false } : Write) ∈ room.broadcast env msg ex)
    ∧ (room.broadcast env msg ex).length
        = (room.clients.keys.filter (fun k => decide (some k ≠ ex))).length := by
  have hperm := broadcast_perm env room msg ex
  refine ⟨?_, ?_, ?_, ?_⟩
  · intro w hw
    have := hperm.subset hw
    simp only [List.mem_map, List.mem_filter] at this
    obtain ⟨k, ⟨hk, hne⟩, rfl⟩ := this
    exact ⟨rfl, AList.mem_keys.mpr hk, by simpa using hne, rfl⟩
  · intro k
    rw [(broadcast_conns_perm env room msg ex).count_eq, keys_filter_count]
  · intro k hk hne herr
    apply hperm.symm.subset
    simp only [List.mem_map, List.mem_filter]
    exact ⟨k, ⟨AList.mem_keys.mp hk, by simpa using hne⟩, by simp [writeJSON, herr]⟩
  · simpa using hperm.length_eq

/-- C12. Delivery of `sendToUser`: if no connection of the room is bound to
the target userID, nothing is written; otherwise the message is written
exactly once, to a connection whose userID is the target (one of them if
several are), and to no other connection.  `sendToUser` returns writes only:
the room is not changed. -/
theorem sendToUser_delivery (env : Env) (room : Room) (targetID : String) (msg : Message) :
    ((∀ k, room.clients.lookup k ≠ some targetID) → room.sendToUser env targetID msg = [])
    ∧ ((∃ k, room.clients.lookup k = some targetID) →
        ∃ k, room.clients.lookup k = some targetID
          ∧ room.sendToUser env targetID msg = [writeJSON env k msg]) :=
  ⟨sendToUser_miss env room targetID msg, sendToUser_hit env room targetID msg⟩

theorem addClient_getUsers_new (env : Env) (room : Room) (c : Conn) (u : String)
    (h : c ∉ room.clients) :
    ((room.addClient c u).getUsers env).Perm (u :: room.getUsers env) := by
  have h1 := getUsers_perm env (room.addClient c u)
  rw [addClient_entries_of_absent room c u h, List.map_cons] at h1
  exact h1.trans ((getUsers_perm env room).symm.cons u)

theorem addClient_length_old (room : Room) (c : Conn) (u : String) (h : c ∈ room.clients) :
    (room.addClient c u).clients.entries.length = room.clients.entries.length := by
  have hk : (room.addClient c u).clients.keys = c :: room.clients.keys.erase c :=
    AList.keys_insert room.clients
  have hl : (room.addClient c u).clients.keys.length = room.clients.keys.length := by
    rw [hk, List.length_cons, List.length_erase_of_mem (AList.mem_keys.mp h)]
    have : 0 < room.clients.keys.length := List.length_pos_of_mem (AList.mem_keys.mp h)
    omega
  simpa [AList.keys, List.keys] using hl

/-- C13. `addClient` is an insert keyed by connection: afterwards the room
binds the connection to the userID and every other binding is as before.
For a connection not yet registered the room has one entry more and
`getUsers` lists the userID once more than before (twice if one other
connection already had it); for a registered connection the number of
entries, and the length of `getUsers`, do not change. -/
theorem addClient_insert (env : Env) (room : Room) (c : Conn) (u : String) :
    (room.addClient c u).clients.lookup c = some u
    ∧ (∀ k, k ≠ c → (room.addClient c u).clients.lookup k = room.clients.lookup k)
    ∧ (c ∉ room.clients →
        (room.addClient c u).clients.entries.length = room.clients.entries.length + 1
        ∧ ((room.addClient c u).getUsers env).Perm (u :: room.getUsers env)
        ∧ ((room.addClient c u).getUsers env).count u = (room.getUsers env).count u + 1)
    ∧ (c ∈ room.clients →
        (room.addClient c u).clients.entries.length = room.clients.entries.length
        ∧ ((room.addClient c u).getUsers env).length = (room.getUsers env).length) := by
  refine ⟨AList.lookup_insert room.clients, fun k hk => AList.lookup_insert_ne hk, ?_, ?_⟩
  · intro h
    have hp := addClient_getUsers_new env room c u h
    refine ⟨by rw [addClient_entries_of_absent room c u h, List.length_cons], hp, ?_⟩
    rw [hp.count_eq, List.count_cons_self]
  · intro h
    have hl := addClient_length_old room c u h
    refine ⟨hl, ?_⟩
    rw [(getUsers_perm env _).length_eq, (getUsers_perm env _).length_eq, List.length_map,
      List.length_map, hl]

/-! ## The registry only grows -/

theorem modify_rooms (st : State) (p : Ptr) (f : Room → Room) :
    (st.modify p f).rooms = st.rooms := rfl

theorem sysStep_rooms_keeps (s : Sys) (x : Step) (roomID : String) (p : Ptr)
    (h : s.st.rooms.lookup roomID = some p) :
    (sysStep s x).1.st.rooms.lookup roomID = some p := by
  unfold sysStep
  cases hev : x.ev with
  | readError =>
    simp only [cleanup_eq]
    cases (s.locals x.conn).currentRoom <;> exact h
  | recv msg =>
    by_cases hjoin : msg.Typ = "join"
    · simp only [handleMessage_join _ _ _ _ msg hjoin, modify_rooms]
      exact getOrCreateRoom_keeps s.st roomID msg.RoomID p h
    · rcases handleMessage_state x.env x.conn s.st (s.locals x.conn) msg hjoin
        with hs | ⟨q, _, _, hs⟩
      · simp only [hs]; exact h
      · simp only [hs, modify_rooms]; exact h

theorem sysRun_rooms_keeps (s : Sys) (trace : List Step) (roomID : String) (p : Ptr)
    (h : s.st.rooms.lookup roomID = some p) :
    (sysRun s trace).1.st.rooms.lookup roomID = some p := by
  induction trace generalizing s with
  | nil => exact h
  | cons x xs ih => exact ih (sysStep s x).1 (sysStep_rooms_keeps s x roomID p h)

/-- C14. Rooms are never removed: a roomID that the registry maps to a room
is mapped to the same room (the same address) after every handler step
(join, offer, answer, ice-candidate, leave, unknown type, disconnect) of any
connection, hence after every sequence of steps, whatever the members of the
room. -/
theorem rooms_never_removed (s : Sys) (roomID : String) (p : Ptr)
    (h : s.st.rooms.lookup roomID = some p) :
    (∀ x, (sysStep s x).1.st.rooms.lookup roomID = some p)
    ∧ (∀ trace, (sysRun s trace).1.st.rooms.lookup roomID = some p) :=
  ⟨fun x => sysStep_rooms_keeps s x roomID p h,
   fun trace => sysRun_rooms_keeps s trace roomID p h⟩

/-- Witness for C14: `r1` has no member left after `alice` left, and is
still registered after her connection is closed. -/
theorem rooms_never_removed_witness :
    (sysRun Sys.init demoEmptied).1.st.rooms.lookup "r1" = some 0
    ∧ ((sysRun Sys.init demoEmptied).1.st.heap 0).clients.entries = []
    ∧ (sysStep (sysRun Sys.init demoEmptied).1
        { env := Env.plain, conn := 1, ev := Event.readError }).1.st.rooms.lookup "r1" = some 0 :=
  ⟨by decide, by decide,
    (rooms_never_removed (sysRun Sys.init demoEmptied).1 "r1" 0 (by decide)).1
      { env := Env.plain, conn := 1, ev := Event.readError }⟩

/-! ## Who is told about a leave -/

/-- C16, counterexample. `alice` (connection 1) and `bob` (connection 2) are
in `r1`; when connection 1 processes `leave`, the only write is `user-left`
to connection 2: connection 1 gets nothing. -/
theorem leave_echo_fails :
    (demoSys.locals 1).currentRoom = some 0
    ∧ (demoSys.st.heap 0).clients.lookup 1 = some "alice"
    ∧ (handleMessage Env.plain 1 demoSys.st (demoSys.locals 1) leaveMsg).2.2
        = [{ conn := 2, msg := { Typ := "user-left", UserID := "alice" }, err := false }]
    ∧ ¬ ∃ w ∈ (handleMessage Env.plain 1 demoSys.st (demoSys.locals 1) leaveMsg).2.2,
          w.conn = 1 := by
  refine ⟨by decide, by decide, by decide, ?_⟩
  decide

/-- C16, amended. On `leave`, the broadcast excludes no one, but the leaving
connection has been removed from the client map before it: every write of
the step is a `user-left` with the userID of the handler to a connection of
the room other than the leaving one, and every other connection of the room
gets it. -/
theorem leave_not_echoed (env : Env) (st : State) (loc : Locals) (c : Conn) (msg : Message)
    (room : Ptr) (hleave : msg.Typ = "leave") (hroom : loc.currentRoom = some room) :
    (∀ w ∈ (handleMessage env c st loc msg).2.2,
        w.conn ≠ c ∧ w.msg = { Typ := "user-left", UserID := loc.currentUserID }
        ∧ w.conn ∈ (st.heap room).clients)
    ∧ (∀ k, k ∈ (st.heap room).clients → k ≠ c →
        writeJSON env k { Typ := "user-left", UserID := loc.currentUserID }
          ∈ (handleMessage env c st loc msg).2.2) := by
  have h : (handleMessage env c st loc msg).2.2
      = ((st.heap room).removeClient c).broadcast env
          { Typ := "user-left", UserID := loc.currentUserID } none := by
    rw [handleMessage_leave env c st loc msg hleave, hroom]
    show ((st.modify room (fun r => r.removeClient c)).heap room).broadcast env _ none = _
    rw [modify_heap_self]
  have hperm := broadcast_none_perm env ((st.heap room).removeClient c)
    { Typ := "user-left", UserID := loc.currentUserID }
  rw [h]
  constructor
  · intro w hw
    have := hperm.subset hw
    simp only [List.mem_map] at this
    obtain ⟨k, hk, rfl⟩ := this
    have hk2 := AList.mem_erase.mp (AList.mem_keys.mpr hk)
    exact ⟨hk2.1, rfl, hk2.2⟩
  · intro k hk hne
    apply hperm.symm.subset
    exact List.mem_map.mpr ⟨k, AList.mem_keys.mp (AList.mem_erase.mpr ⟨hne, hk⟩), rfl⟩

/-- Witness for C16: `alice` leaves `r1` while `bob` is in it. -/
theorem leave_not_echoed_witness :
    leaveMsg.Typ = "leave" ∧ (demoSys.locals 1).currentRoom = some 0
    ∧ ∀ w ∈ (handleMessage Env.rev 1 demoSys.st (demoSys.locals 1) leaveMsg).2.2,
        w.conn ≠ 1 ∧ w.msg = { Typ := "user-left", UserID := (demoSys.locals 1).currentUserID }
        ∧ w.conn ∈ (demoSys.st.heap 0).clients :=
  ⟨rfl, by decide,
    (leave_not_echoed Env.rev demoSys.st (demoSys.locals 1) 1 leaveMsg 0 rfl (by decide)).1⟩

/-! ## The sender of a relayed message -/

theorem sysRun_append (s : Sys) (a b : List Step) :
    sysRun s (a ++ b)
      = ((sysRun (sysRun s a).1 b).1, (sysRun s a).2 ++ (sysRun (sysRun s a).1 b).2) := by
  induction a generalizing s with
  | nil => simp [sysRun]
  | cons x xs ih => simp [sysRun, ih, List.append_assoc]

theorem sendToUser_mem (env : Env) (room : Room) (t : String) (msg : Message) (w : Write)
    (hw : w ∈ room.sendToUser env t msg) :
    w.msg = msg ∧ room.clients.lookup w.conn = some t := by
  by_cases h : ∃ k, room.clients.lookup k = some t
  · obtain ⟨k, hk, heq⟩ := sendToUser_hit env room t msg h
    rw [heq, List.mem_singleton] at hw
    subst hw
    exact ⟨rfl, hk⟩
  · rw [sendToUser_miss env room t msg (fun k hk => h ⟨k, hk⟩)] at hw
    cases hw

theorem relay_writes_userID (env : Env) (c : Conn) (st : State) (loc : Locals) (msg : Message)
    (h : IsRelay msg) (w : Write) (hw : w ∈ (handleMessage env c st loc msg).2.2) :
    w.msg = relayOf loc.currentUserID msg
    ∧ ∃ room, loc.currentRoom = some room
        ∧ (st.heap room).clients.lookup w.conn = some msg.TargetID := by
  rw [handleMessage_relay env c st loc msg h] at hw
  cases hr : loc.currentRoom with
  | none =>
    simp only [hr] at hw
    cases hw
  | some room =>
    simp only [hr] at hw
    have := sendToUser_mem env _ _ _ w hw
    exact ⟨this.1, room, rfl, this.2⟩

theorem relay_forged_eq (env : Env) (c : Conn) (st : State) (loc : Locals) (msg : Message)
    (forged : String) (h : IsRelay msg) :
    handleMessage env c st loc { msg with UserID := forged } = handleMessage env c st loc msg := by
  have h2 : IsRelay { msg with UserID := forged } := h
  rw [handleMessage_relay env c st loc _ h2, handleMessage_relay env c st loc msg h]
  rfl

/-- C17. The sender of a relayed message cannot be spoofed: after a join
read on connection `c` and any further steps with no join on `c`, two offers
(or answers, or ice-candidates) read on `c` that differ only in their userId
field give the same step (same writes, same state), and every write of the
step has the type of the inbound message and the userId of that most recent
join. -/
theorem relay_sender_not_spoofed (s0 : Sys) (c : Conn) (pre rest : List Step) (envJ : Env)
    (jm : Message) (env : Env) (msg : Message) (forged : String)
    (hjoin : jm.Typ = "join")
    (hrest : ∀ x ∈ rest, NoJoinOn c x)
    (htyp : IsRelay msg) :
    let s := (sysRun s0 (pre ++ { env := envJ, conn := c, ev := Event.recv jm } :: rest)).1
    sysStep s { env := env, conn := c, ev := Event.recv { msg with UserID := forged } }
      = sysStep s { env := env, conn := c, ev := Event.recv msg }
    ∧ (s.locals c).currentUserID = jm.UserID
    ∧ ∀ w ∈ (sysStep s { env := env, conn := c, ev := Event.recv msg }).2,
        w.msg.Typ = msg.Typ ∧ w.msg.UserID = jm.UserID := by
  intro s
  have hloc : (s.locals c).currentUserID = jm.UserID := by
    have h1 : s = (sysRun (sysStep (sysRun s0 pre).1
        { env := envJ, conn := c, ev := Event.recv jm }).1 rest).1 := by
      simp only [s, sysRun_append, sysRun]
    rw [h1, sysRun_locals _ rest c hrest]
    simp [sysStep, handleMessage_join_locals _ _ _ _ jm hjoin]
  refine ⟨?_, hloc, ?_⟩
  · simp only [sysStep, relay_forged_eq _ _ _ _ msg forged htyp]
  · intro w hw
    have := (relay_writes_userID env c s.st (s.locals c) msg htyp w hw).1
    rw [this, hloc]
    exact ⟨rfl, rfl⟩

/-- Witness for C17: `bob` sends an offer claiming to come from `alice`. -/
theorem relay_sender_not_spoofed_witness :
    (joinMsg "r1" "bob").Typ = "join"
    ∧ (∀ x ∈ ([] : List Step), NoJoinOn 2 x)
    ∧ IsRelay demoOffer
    ∧ sysStep demoSys { env := Env.plain, conn := 2, ev := Event.recv demoForged }
        = sysStep demoSys { env := Env.plain, conn := 2, ev := Event.recv demoOffer }
    ∧ ∀ w ∈ (sysStep demoSys { env := Env.plain, conn := 2, ev := Event.recv demoOffer }).2,
        w.msg.Typ = demoOffer.Typ ∧ w.msg.UserID = "bob" :=
  have hrest : ∀ x ∈ ([] : List Step), NoJoinOn 2 x := fun x hx => absurd hx (List.not_mem_nil x)
  have h := relay_sender_not_spoofed Sys.init 2 [demoJoinAlice] [] Env.plain (joinMsg "r1" "bob")
    Env.plain demoOffer "alice" rfl hrest (Or.inl rfl)
  ⟨rfl, hrest, Or.inl rfl, h.1, h.2.2⟩

/-! ## A step stays in its room -/

theorem getOrCreateRoom_heap_ne (st : State) (roomID : String) (q : Ptr)
    (h : q ≠ (getOrCreateRoom st roomID).1) :
    (getOrCreateRoom st roomID).2.heap q = st.heap q := by
  cases hl : st.rooms.lookup roomID with
  | some p => rw [getOrCreateRoom_of_lookup st roomID p hl]
  | none =>
    rw [getOrCreateRoom_new st roomID hl] at h ⊢
    exact Function.update_noteq h _ _

theorem handleMessage_join_writes (env : Env) (c : Conn) (st : State) (loc : Locals)
    (msg : Message) (hjoin : msg.Typ = "join") :
    (handleMessage env c st loc msg).2.2
      = writeJSON env c
          { Typ := "users",
            Users := ((getOrCreateRoom st msg.RoomID).2.heap
              (getOrCreateRoom st msg.RoomID).1).getUsers env } ::
        ((handleMessage env c st loc msg).1.heap (getOrCreateRoom st msg.RoomID).1).broadcast env
          { Typ := "user-joined", UserID := msg.UserID } (some c) := by
  simp only [handleMessage, hjoin, if_true]

theorem handleMessage_other (env : Env) (c : Conn) (st : State) (loc : Locals) (msg : Message)
    (hjoin : msg.Typ ≠ "join") (hrelay : ¬ IsRelay msg) (hleave : msg.Typ ≠ "leave") :
    handleMessage env c st loc msg = (st, loc, []) := by
  have h1 : msg.Typ ≠ "offer" := fun h => hrelay (Or.inl h)
  have h2 : msg.Typ ≠ "answer" := fun h => hrelay (Or.inr (Or.inl h))
  have h3 : msg.Typ ≠ "ice-candidate" := fun h => hrelay (Or.inr (Or.inr h))
  simp only [handleMessage, hjoin, h1, h2, h3, hleave, if_false]

theorem broadcast_mem (env : Env) (room : Room) (msg : Message) (ex : Option Conn) (w : Write)
    (hw : w ∈ room.broadcast env msg ex) :
    w.msg = msg ∧ w.conn ∈ room.clients ∧ some w.conn ≠ ex := by
  have := (broadcast_perm env room msg ex).subset hw
  simp only [List.mem_map, List.mem_filter] at this
  obtain ⟨k, ⟨hk, hne⟩, rfl⟩ := this
  exact ⟨rfl, AList.mem_keys.mpr hk, by simpa using hne⟩

/-- The handler step on a message, seen from the room bound after it. -/
theorem handleMessage_isolation (env : Env) (c : Conn) (st : State) (loc : Locals)
    (msg : Message) (R : Ptr)
    (h : (handleMessage env c st loc msg).2.1.currentRoom = some R) :
    (∀ q, q ≠ R → (handleMessage env c st loc msg).1.heap q = st.heap q)
    ∧ (∀ w ∈ (handleMessage env c st loc msg).2.2,
        w.conn = c ∨ w.conn ∈ ((handleMessage env c st loc msg).1.heap R).clients) := by
  by_cases hjoin : msg.Typ = "join"
  · rw [handleMessage_join_locals env c st loc msg hjoin] at h
    have hR : (getOrCreateRoom st msg.RoomID).1 = R := Option.some.inj h
    constructor
    · intro q hq
      rw [handleMessage_join env c st loc msg hjoin, hR, modify_heap_ne _ _ _ _ hq]
      exact getOrCreateRoom_heap_ne st msg.RoomID q (hR ▸ hq)
    · intro w hw
      rw [handleMessage_join_writes env c st loc msg hjoin, hR] at hw
      rcases List.mem_cons.mp hw with rfl | hw
      · exact Or.inl rfl
      · exact Or.inr (broadcast_mem env _ _ _ w hw).2.1
  · rw [handleMessage_locals env c st loc msg hjoin] at h
    by_cases hrelay : IsRelay msg
    · rw [handleMessage_relay env c st loc msg hrelay]
      refine ⟨fun q _ => rfl, fun w hw => Or.inr ?_⟩
      simp only [h] at hw
      exact AList.lookup_isSome.mp (by rw [(sendToUser_mem env _ _ _ w hw).2]; rfl)
    · by_cases hleave : msg.Typ = "leave"
      · rw [handleMessage_leave env c st loc msg hleave, h]
        dsimp only
        refine ⟨fun q hq => modify_heap_ne st R q _ hq, fun w hw => Or.inr ?_⟩
        exact (broadcast_mem env _ _ _ w hw).2.1
      · rw [handleMessage_other env c st loc msg hjoin hrelay hleave]
        exact ⟨fun q _ => rfl, fun w hw => by cases hw⟩

/-- C18. Room isolation of a handler step: if the handler of the connection
that takes the step has room `R` bound after the step, then every room other
than `R` is as before the step, and every write of the step goes to that
connection or to a connection registered in `R` after the step.  So when the
handler had another room bound before the step (a join to another roomID),
that room is untouched, the old binding of the connection included. -/
theorem step_room_isolation (s : Sys) (x : Step) (R : Ptr)
    (h : ((sysStep s x).1.locals x.conn).currentRoom = some R) :
    (∀ q, q ≠ R → (sysStep s x).1.st.heap q = s.st.heap q)
    ∧ (∀ w ∈ (sysStep s x).2,
        w.conn = x.conn ∨ w.conn ∈ ((sysStep s x).1.st.heap R).clients)
    ∧ (∀ old, (s.locals x.conn).currentRoom = some old → old ≠ R →
        (sysStep s x).1.st.heap old = s.st.heap old) := by
  have key : (∀ q, q ≠ R → (sysStep s x).1.st.heap q = s.st.heap q)
      ∧ (∀ w ∈ (sysStep s x).2,
          w.conn = x.conn ∨ w.conn ∈ ((sysStep s x).1.st.heap R).clients) := by
    unfold sysStep at h ⊢
    cases hev : x.ev with
    | readError =>
      simp only [hev] at h
      simp only [cleanup_eq, h]
      refine ⟨fun q hq => modify_heap_ne s.st R q _ hq, fun w hw => Or.inr ?_⟩
      exact (broadcast_mem x.env _ _ _ w hw).2.1
    | recv msg =>
      simp only [hev, Function.update_same] at h
      exact handleMessage_isolation x.env x.conn s.st (s.locals x.conn) msg R h
  exact ⟨key.1, key.2, fun old _ hne => key.1 old hne⟩

/-- Witness for C18: connection 1, bound to `alice` in `r1`, joins `r2`; room
`r1` is as before. -/
theorem step_room_isolation_witness :
    ((sysStep demoSys demoJoinSecond).1.locals demoJoinSecond.conn).currentRoom = some 1
    ∧ (demoSys.locals 1).currentRoom = some 0
    ∧ (sysStep demoSys demoJoinSecond).1.st.heap 0 = demoSys.st.heap 0
    ∧ (demoSys.st.heap 0).clients.lookup 1 = some "alice" :=
  ⟨by decide, by decide,
    (step_room_isolation demoSys demoJoinSecond 1 (by decide)).2.2 0 (by decide) (by decide),
    by decide⟩

/-! ## The end-to-end scenario -/

theorem perm_short {α : Type} (l L : List α) (h : l.Perm L) (hlen : L.length ≤ 1) : l = L := by
  match L, hlen with
  | [], _ => exact h.eq_nil
  | [a], _ => exact List.perm_singleton.mp h

theorem broadcast_eq_of_keys (env : Env) (room : Room) (msg : Message) (ex : Option Conn)
    (ks : List Conn) (hk : room.clients.keys.filter (fun k => decide (some k ≠ ex)) = ks)
    (hlen : ks.length ≤ 1) :
    room.broadcast env msg ex = ks.map (fun k => writeJSON env k msg) := by
  apply perm_short
  · rw [← hk]; exact broadcast_perm env room msg ex
  · simpa using hlen

theorem getUsers_eq_of_users (env : Env) (room : Room) (us : List String)
    (hu : room.clients.entries.map (fun e => e.2) = us) (hlen : us.length ≤ 1) :
    room.getUsers env = us := by
  apply perm_short _ _ _ hlen
  rw [← hu]; exact getUsers_perm env room

theorem sendToUser_eq_of_unique (env : Env) (room : Room) (t : String) (msg : Message)
    (k : Conn) (hk : room.clients.lookup k = some t)
    (huniq : ∀ j, room.clients.lookup j = some t → j = k) :
    room.sendToUser env t msg = [writeJSON env k msg] := by
  obtain ⟨j, hj, heq⟩ := sendToUser_hit env room t msg ⟨k, hk⟩
  rw [heq, huniq j hj]

/-- C15. End-to-end scenario from the empty registry, for every iteration
order, every set of failing writes and every sdp payload: connection 1
joins `r1` as `alice`, connection 2 joins `r1` as `bob`, connection 2 sends
an offer for `alice`, connection 1 leaves.  The writes are, in order and with
nothing else: `users []` to 1; `users [alice]` to 2 and `user-joined bob` to
1; the offer with userId `bob` and the same sdp to 1; `user-left alice` to 2. -/
theorem end_to_end (e1 e2 e3 e4 : Env) (S : Option SessionDescription) :
    (sysRun Sys.init
      [{ env := e1, conn := 1, ev := Event.recv (joinMsg "r1" "alice") },
       { env := e2, conn := 2, ev := Event.recv (joinMsg "r1" "bob") },
       { env := e3, conn := 2,
         ev := Event.recv { Typ := "offer", UserID := "bob", TargetID := "alice", SDP := S } },
       { env := e4, conn := 1, ev := Event.recv leaveMsg }]).2
    = [writeJSON e1 1 { Typ := "users", Users := [] },
       writeJSON e2 2 { Typ := "users", Users := ["alice"] },
       writeJSON e2 1 { Typ := "user-joined", UserID := "bob" },
       writeJSON e3 1 { Typ := "offer", UserID := "bob", SDP := S },
       writeJSON e4 2 { Typ := "user-left", UserID := "alice" }] := by
  have h1 : (handleMessage e1 1 State.init Locals.init (joinMsg "r1" "alice")).2.2
      = [writeJSON e1 1 { Typ := "users", Users := [] }] := by
    rw [handleMessage_join_writes _ _ _ _ _ rfl]
    rw [getUsers_eq_of_users e1 _ [] (by decide) (by decide)]
    rw [broadcast_eq_of_keys e1 _ _ _ [] (by rfl) (by decide)]
    rfl
  have h2 : (handleMessage e2 2 demoSysAlice.st (demoSysAlice.locals 2) (joinMsg "r1" "bob")).2.2
      = [writeJSON e2 2 { Typ := "users", Users := ["alice"] },
         writeJSON e2 1 { Typ := "user-joined", UserID := "bob" }] := by
    rw [handleMessage_join_writes _ _ _ _ _ rfl]
    rw [getUsers_eq_of_users e2 _ ["alice"] (by decide) (by decide)]
    rw [broadcast_eq_of_keys e2 _ _ _ [1] (by rfl) (by decide)]
    rfl
  have h3 : (handleMessage e3 2 demoSys.st (demoSys.locals 2)
        { Typ := "offer", UserID := "bob", TargetID := "alice", SDP := S }).2.2
      = [writeJSON e3 1 { Typ := "offer", UserID := "bob", SDP := S }] := by
    rw [handleMessage_relay _ _ _ _ _ (Or.inl rfl)]
    show (demoSys.st.heap 0).sendToUser e3 "alice" _ = _
    rw [sendToUser_eq_of_unique e3 _ "alice" _ 1 (by decide)]
    · rfl
    · intro j hj
      have : (⟨j, "alice"⟩ : Entry) ∈ (demoSys.st.heap 0).clients.entries :=
        AList.mem_lookup_iff.mp hj
      have he : (demoSys.st.heap 0).clients.entries = [⟨2, "bob"⟩, ⟨1, "alice"⟩] := by decide
      rw [he] at this
      simpa using this
  have h4 : (handleMessage e4 1 demoSys.st (demoSys.locals 1) leaveMsg).2.2
      = [writeJSON e4 2 { Typ := "user-left", UserID := "alice" }] := by
    rw [handleMessage_leave _ _ _ _ _ rfl]
    show ((demoSys.st.modify 0 (fun r => r.removeClient 1)).heap 0).broadcast e4 _ none = _
    rw [broadcast_eq_of_keys e4 _ _ _ [2] (by decide) (by decide)]
    rfl
  show (handleMessage e1 1 State.init Locals.init (joinMsg "r1" "alice")).2.2
    ++ ((handleMessage e2 2 demoSysAlice.st (demoSysAlice.locals 2) (joinMsg "r1" "bob")).2.2
    ++ ((handleMessage e3 2 demoSys.st (demoSys.locals 2)
        { Typ := "offer", UserID := "bob", TargetID := "alice", SDP := S }).2.2
    ++ ((handleMessage e4 1 demoSys.st (demoSys.locals 1) leaveMsg).2.2 ++ []))) = _
  rw [h1, h2, h3, h4]
  rfl

end Signaling
